import Mathlib

/-!
Verification development for the deduction and hint engine of a companion
tool for a hexagonal-map hidden-information board game.  The definitions
below are a shallow embedding of the Rust sources (`src/model.rs` and
`src/substate/tryingclues.rs`); the theorems settle the specification
claims about them.
-/

set_option maxHeartbeats 1000000

/-- Axial hexagon-grid coordinate, mirroring the `hexx::Hex` type that the map
uses for tile positions. -/
structure Hex where
  x : Int
  y : Int
deriving DecidableEq, Repr

/-- Hex-grid distance between two axial coordinates, as `hexx` computes it:
`(|dx| + |dy| + |dx + dy|) / 2`. -/
def hexDist (a b : Hex) : Nat :=
  ((a.x - b.x).natAbs + (a.y - b.y).natAbs + ((a.x - b.x) + (a.y - b.y)).natAbs) / 2

/-- Integer offsets `-r, …, r` used to enumerate a hexagon of radius `r`. -/
def intRange (r : Nat) : List Int :=
  (List.range (2 * r + 1)).map (fun (i : Nat) => (i : Int) - (r : Int))

/-- All axial coordinates within hex-distance `r` of `center`: the coordinate
set iterated by `HexMap::new(r).with_center(center).all_coords()` in
`Map::any`. -/
def hexDisk (center : Hex) (r : Nat) : List Hex :=
  (intRange r).flatMap (fun dx =>
    (intRange r).filterMap (fun dy =>
      if (dx + dy).natAbs ≤ r then some ⟨center.x + dx, center.y + dy⟩ else none))

/-- Terrain of a tile (enum order as declared in the source). -/
inductive Terrain where
  | Desert
  | Forest
  | Water
  | Swamp
  | Mountain
deriving DecidableEq, Repr

/-- Iteration order of `Terrain::iter()` (the `EnumIter` derive yields
declaration order). -/
def Terrain.iter : List Terrain :=
  [.Desert, .Forest, .Water, .Swamp, .Mountain]

/-- Animal that may live on a tile. -/
inductive Animal where
  | Bear
  | Cougar
deriving DecidableEq, Repr

/-- Iteration order of `Animal::iter()`. -/
def Animal.iter : List Animal :=
  [.Bear, .Cougar]

/-- Color of a structure. -/
inductive StructureColor where
  | White
  | Green
  | Blue
  | Black
deriving DecidableEq, Repr

/-- Kind of a structure. -/
inductive StructureKind where
  | Shack
  | Stone
deriving DecidableEq, Repr

/-- A structure standing on a tile. -/
structure Structure where
  kind : StructureKind
  color : StructureColor
deriving DecidableEq, Repr

/-- Identifier of a player (`PlayerID(usize)` in the source). -/
abbrev PlayerID := Nat

/-- Answer a player gave on a tile. -/
inductive Answer where
  | Unknown
  | Yes
  | No
deriving DecidableEq, Repr

/-- Lookup in the per-tile answer map (`BTreeMap::get`), modelled on an
association list. -/
def alookup (p : PlayerID) : List (PlayerID × Answer) → Option Answer
  | [] => none
  | (k, v) :: rest => if k = p then some v else alookup p rest

/-- Insertion into the per-tile answer map (`BTreeMap::insert`): replace the
existing entry for the key, or add a new entry. -/
def ainsert (p : PlayerID) (a : Answer) : List (PlayerID × Answer) → List (PlayerID × Answer)
  | [] => [(p, a)]
  | (k, v) :: rest => if k = p then (p, a) :: rest else (k, v) :: ainsert p a rest

/-- A single hexagon in the game world. -/
structure Tile where
  position : Hex
  terrain : Terrain
  animal : Option Animal
  structure_ : Option Structure
  /-- Small is true if this tile should be drawn a bit smaller than usual. -/
  small : Bool
  /-- Answers given by players questioning this tile. -/
  answers : List (PlayerID × Answer)
deriving DecidableEq, Repr

/-- A clue kind: the closed set of the six clue shapes. -/
inductive ClueKind where
  | Terrain (t : Terrain)
  | TwoTerrains (a b : Terrain)
  | EitherAnimal
  | Animal (a : Animal)
  | StructureKind (k : StructureKind)
  | StructureColor (c : StructureColor)
deriving DecidableEq, Repr

/-- A clue: a kind plus an inverted flag. -/
structure Clue where
  kind : ClueKind
  inverted : Bool
deriving DecidableEq, Repr

/-- Combinatorial enumeration of 2-element combinations of a list, in the
order produced by `itertools`' `combinations(2)`. -/
def pairs2 {α : Type} : List α → List (α × α)
  | [] => []
  | x :: xs => xs.map (fun y => (x, y)) ++ pairs2 xs

/-- List of structure colors (helper alias so that the binder types of
`ClueKind.all` are not captured by the constructor names of `ClueKind`). -/
abbrev StructureColorList := List StructureColor

/-- List of structure kinds (helper alias, see `StructureColorList`). -/
abbrev StructureKindList := List StructureKind

/-- Returns every possible clue kind for the available structure colors/kinds
(`ClueKind::all`). -/
def ClueKind.all (structure_colors : StructureColorList)
    (structure_kinds : StructureKindList) : List ClueKind :=
  Terrain.iter.map ClueKind.Terrain
    ++ (pairs2 Terrain.iter).map (fun ts => ClueKind.TwoTerrains ts.1 ts.2)
    ++ [ClueKind.EitherAnimal]
    ++ Animal.iter.map ClueKind.Animal
    ++ structure_kinds.map ClueKind.StructureKind
    ++ structure_colors.map ClueKind.StructureColor

/-- Returns every possible clue for the available structure colors/kinds
(`Clue::all`): the base kinds non-inverted, then, if `with_inverted`, the same
kinds again inverted. -/
def Clue.all (structure_colors : List StructureColor)
    (structure_kinds : List StructureKind) (with_inverted : Bool) : List Clue :=
  (ClueKind.all structure_colors structure_kinds).map (fun kind => ⟨kind, false⟩)
    ++ (if with_inverted then
          (ClueKind.all structure_colors structure_kinds).map (fun kind => ⟨kind, true⟩)
        else [])

/-- A map of tiles (`Map(pub Vec<Tile>)`). -/
structure Map where
  tiles : List Tile
deriving DecidableEq, Repr

/-- First tile stored at the given position (`Map::get`). -/
def Map.get (m : Map) (at_ : Hex) : Option Tile :=
  m.tiles.find? (fun tile => tile.position = at_)

/-- Check any fields for the condition.  Position is always checked; distance
0 is only the position, distance 1 adds the direct neighbors, etc.
Returns true if the condition holds for any field (`Map::any`). -/
def Map.any (m : Map) (position : Hex) (distance : Nat) (condition : Tile → Bool) : Bool :=
  (hexDisk position distance).any (fun check =>
    match m.get check with
    | some tile => condition tile
    | none => false)

/-- The base spatial condition of a clue kind at a position: the `match
clue.kind` expression inside `Map::clue_applies`. -/
def Map.kind_applies (m : Map) (kind : ClueKind) (position : Hex) : Bool :=
  match kind with
  | .Terrain terrain => m.any position 1 (fun t => t.terrain = terrain)
  | .TwoTerrains a b =>
    match m.get position with
    | some tile => tile.terrain = a || tile.terrain = b
    | none => false
  | .EitherAnimal => m.any position 1 (fun t => t.animal.isSome)
  | .Animal animal => m.any position 2 (fun t => t.animal = some animal)
  | .StructureKind kind =>
    m.any position 2 (fun t => (t.structure_.map (fun s => s.kind == kind)).getD false)
  | .StructureColor color =>
    m.any position 3 (fun t => (t.structure_.map (fun s => s.color == color)).getD false)

/-- Returns true if the cryptid could be at the given position according to
the clue (`Map::clue_applies`): the base condition of the kind, XORed with
the inverted flag. -/
def Map.clue_applies (m : Map) (clue : Clue) (position : Hex) : Bool :=
  let applies := m.kind_applies clue.kind position
  if clue.inverted then !applies else applies

/-- Fuel-indexed helper for `uniqueFirst`; the fuel is an upper bound on
the length of the list, so the recursion is structural. -/
def uniqueFirstAux {α : Type} [DecidableEq α] : Nat → List α → List α
  | _, [] => []
  | 0, _ :: _ => []
  | n + 1, x :: xs => x :: uniqueFirstAux n (xs.filter (fun y => y ≠ x))

/-- Removes duplicates keeping the first occurrence of each element, as
`itertools`' `unique()` does. -/
def uniqueFirst {α : Type} [DecidableEq α] (l : List α) : List α :=
  uniqueFirstAux l.length l

/-- Returns the `StructureColor`s present on the map
(`Map::structure_colors`). -/
def Map.structure_colors (m : Map) : List StructureColor :=
  uniqueFirst ((m.tiles.filterMap (fun t => t.structure_)).map (fun s => s.color))

/-- Returns the `StructureKind`s present on the map
(`Map::structure_kinds`). -/
def Map.structure_kinds (m : Map) : List StructureKind :=
  uniqueFirst ((m.tiles.filterMap (fun t => t.structure_)).map (fun s => s.kind))

/-- Does the given answer on a tile contradict a clue that applies (or not)
at the tile?  This is the `match (answer, clue_applies)` table inside
`Map::clues_for_player`. -/
def contradicts : Answer → Bool → Bool
  | .Unknown, _ => false
  | .Yes, true => false
  | .Yes, false => true
  | .No, true => true
  | .No, false => false

/-- Return a list of possible clues for the player, respecting the answers
they already gave (`Map::clues_for_player`). -/
def Map.clues_for_player (m : Map) (player : PlayerID) (with_inverted : Bool) : List Clue :=
  (Clue.all m.structure_colors m.structure_kinds with_inverted).filter (fun clue =>
    ! m.tiles.any (fun t =>
      match alookup player t.answers with
      | some answer => contradicts answer (m.clue_applies clue t.position)
      | none => false))

/-- Effective answer of a player on a tile: the stored answer, a missing
entry reading as `Unknown` (the code treats both identically). -/
def effA (p : PlayerID) (t : Tile) : Answer :=
  (alookup p t.answers).getD .Unknown

/-- The static part of two tiles agrees: position, terrain, animal and
structure (everything except the derived `small` flag and the mutable
`answers`). -/

def TileStatic (t t' : Tile) : Prop :=
  t.position = t'.position ∧ t.terrain = t'.terrain ∧ t.animal = t'.animal ∧
    t.structure_ = t'.structure_

/-- Two maps agree on all static tile data (lengths and, pointwise, the
static fields). -/
def StaticEq (m m' : Map) : Prop :=
  List.Forall₂ TileStatic m.tiles m'.tiles

/-- Relation lifted to `Option`, matching `none` with `none`. -/
inductive OptRel (R : α → β → Prop) : Option α → Option β → Prop
  | none : OptRel R Option.none Option.none
  | some {a : α} {b : β} : R a b → OptRel R (Option.some a) (Option.some b)

/-- Two tiles agree statically and on the effective answer of player `p`. -/
def TileEff (p : PlayerID) (t t' : Tile) : Prop :=
  TileStatic t t' ∧ effA p t = effA p t'

/-- Two maps agree statically and on the effective answers of player `p`. -/
def EffEq (p : PlayerID) (m m' : Map) : Prop :=
  List.Forall₂ (TileEff p) m.tiles m'.tiles

/-- The specification's base spatial condition for each clue kind: phrased
directly as an existence statement over the tiles within the kind's radius. -/
def kind_holds_spec (m : Map) (k : ClueKind) (pos : Hex) : Prop :=
  match k with
  | .Terrain t => ∃ tile ∈ m.tiles, hexDist tile.position pos ≤ 1 ∧ tile.terrain = t
  | .TwoTerrains a b =>
    ∃ tile ∈ m.tiles, tile.position = pos ∧ (tile.terrain = a ∨ tile.terrain = b)
  | .EitherAnimal =>
    ∃ tile ∈ m.tiles, hexDist tile.position pos ≤ 1 ∧ ∃ a, tile.animal = some a
  | .Animal a => ∃ tile ∈ m.tiles, hexDist tile.position pos ≤ 2 ∧ tile.animal = some a
  | .StructureKind k =>
    ∃ tile ∈ m.tiles, hexDist tile.position pos ≤ 2 ∧
      ∃ s, tile.structure_ = some s ∧ s.kind = k
  | .StructureColor c =>
    ∃ tile ∈ m.tiles, hexDist tile.position pos ≤ 3 ∧
      ∃ s, tile.structure_ = some s ∧ s.color = c

/-- Example tiles and map from the specification's concrete scenario: a
Desert center with a Forest/Bear neighbor at distance 1. -/
def exTileCenter : Tile := ⟨⟨0, 0⟩, .Desert, none, none, false, []⟩

/-- Forest neighbor with a bear, at distance 1 from the center. -/
def exTileForest : Tile := ⟨⟨1, 0⟩, .Forest, some .Bear, none, false, []⟩

/-- Two-tile example map. -/
def exMap : Map := ⟨[exTileCenter, exTileForest]⟩

/-- Generic association-list lookup keyed by `PlayerID`, modelling the
`get` of the `HashMap`s / `BTreeMap`s of the state. -/
def plookup {β : Type} (p : PlayerID) : List (PlayerID × β) → Option β
  | [] => none
  | (k, v) :: rest => if k = p then some v else plookup p rest

/-- Generic association-list insertion keyed by `PlayerID`, modelling the
`insert` of the `HashMap`s of the state. -/
def pinsert {β : Type} (p : PlayerID) (b : β) : List (PlayerID × β) → List (PlayerID × β)
  | [] => [(p, b)]
  | (k, v) :: rest => if k = p then (p, b) :: rest else (k, v) :: pinsert p b rest

/-- Modify the element at an index of a list, leaving other elements (and a
too-large index) unchanged. -/
def listModify {α : Type} (f : α → α) : Nat → List α → List α
  | _, [] => []
  | 0, x :: xs => f x :: xs
  | n + 1, x :: xs => x :: listModify f n xs

/-- Set the `small` flag of the tile at index `i`. -/
def Map.setTileSmall (m : Map) (i : Nat) (b : Bool) : Map :=
  ⟨listModify (fun t => { t with small := b }) i m.tiles⟩

/-- Replace the stored answer of player `p` on the tile at index `i`
(`self.map.0[i].answers.insert(player, answer)`). -/
def Map.setAnswerAt (m : Map) (i : Nat) (p : PlayerID) (a : Answer) : Map :=
  ⟨listModify (fun t => { t with answers := ainsert p a t.answers }) i m.tiles⟩

/-- Read the answer of player `p` on the tile at index `i` through the
entry API (`answers.entry(player).or_default()`): a missing entry is
inserted as `Unknown` and `Unknown` is returned. -/
def Map.entryOrDefaultAt (m : Map) (i : Nat) (p : PlayerID) : Answer × Map :=
  match m.tiles[i]? with
  | none => (.Unknown, m)
  | some t =>
    match alookup p t.answers with
    | some a => (a, m)
    | none => (.Unknown, m.setAnswerAt i p .Unknown)

/-- Absolute difference on naturals (`usize::abs_diff`). -/
def abs_diff (a b : Nat) : Nat := if a ≤ b then b - a else a - b

/-- All elements attaining the minimal key, in input order (`itertools`'
`min_set_by_key`). -/
def min_set_by_key {α : Type} (key : α → Nat) (l : List α) : List α :=
  match (l.map key).min? with
  | none => []
  | some k => l.filter (fun a => key a = k)

/-- Helper struct to keep track of how many clues are affected by asking a
question on a tile. -/
structure Question where
  tile : Hex
  gain_with_no : Nat
  gain_with_yes : Nat
deriving DecidableEq, Repr

/-- Helper struct for the self-player \x22least information\x22 scan. -/
structure No where
  clue_diff : Nat
  tile : Hex
deriving DecidableEq, Repr

/-- The per-tile scan of the opponent-question loop in
`TryingClues::calculate_hints`: for every listed tile index with an
`Unknown` effective answer, simulate `Yes` and `No`, record the two gains,
and restore the answer to `Unknown`. -/
def question_scan (wi : Bool) (p : PlayerID) (before_len : Nat) :
    Map → List Nat → Map × List Question
  | m, [] => (m, [])
  | m, i :: rest =>
    match m.tiles[i]? with
    | none => question_scan wi p before_len m rest
    | some t0 =>
      let ad := m.entryOrDefaultAt i p
      if ad.1 ≠ Answer.Unknown then question_scan wi p before_len ad.2 rest
      else
        let m2 := ad.2.setAnswerAt i p .Yes
        let clues_with_yes := m2.clues_for_player p wi
        let m3 := m2.setAnswerAt i p .No
        let clues_with_no := m3.clues_for_player p wi
        let m4 := m3.setAnswerAt i p .Unknown
        let q : Question := ⟨t0.position, abs_diff before_len clues_with_no.length,
          abs_diff before_len clues_with_yes.length⟩
        let res := question_scan wi p before_len m4 rest
        (res.1, q :: res.2)

/-- The per-opponent block of `TryingClues::calculate_hints`: skip the
player when exactly one candidate clue remains, otherwise scan all tiles
and return the tied set of best-balance tiles together with the reported
least/most gain. -/
def Map.best_question (m : Map) (p : PlayerID) (wi : Bool) :
    Map × Option (List Hex × Nat × Nat) :=
  let clues_before := m.clues_for_player p wi
  if clues_before.length = 1 then (m, none)
  else
    let res := question_scan wi p clues_before.length m (List.range m.tiles.length)
    let best := min_set_by_key (fun q => abs_diff q.gain_with_yes q.gain_with_no) res.2
    match best with
    | [] => (res.1, none)
    | q :: _ =>
      (res.1, some (best.map (fun q => q.tile),
        min q.gain_with_no q.gain_with_yes, max q.gain_with_no q.gain_with_yes))

/-- The per-tile scan of the self-player loop in
`TryingClues::calculate_hints`: simulate only `No` on every tile with an
`Unknown` effective answer and restore. -/
def no_scan (wi : Bool) (p : PlayerID) (before_len : Nat) :
    Map → List Nat → Map × List No
  | m, [] => (m, [])
  | m, i :: rest =>
    match m.tiles[i]? with
    | none => no_scan wi p before_len m rest
    | some t0 =>
      let ad := m.entryOrDefaultAt i p
      if ad.1 ≠ Answer.Unknown then no_scan wi p before_len ad.2 rest
      else
        let m2 := ad.2.setAnswerAt i p .No
        let clues_with_no := m2.clues_for_player p wi
        let m3 := m2.setAnswerAt i p .Unknown
        let n : No := ⟨abs_diff before_len clues_with_no.length, t0.position⟩
        let res := no_scan wi p before_len m3 rest
        (res.1, n :: res.2)

/-- The self-player block of `TryingClues::calculate_hints`: find the tiles
where being forced to answer \x22no\x22 reveals the least information. -/
def Map.quietest_tile (m : Map) (p : PlayerID) (wi : Bool) :
    Map × Option (List Hex × Nat) :=
  let clues_before := m.clues_for_player p wi
  let res := no_scan wi p clues_before.length m (List.range m.tiles.length)
  let best := min_set_by_key (fun n => n.clue_diff) res.2
  match best with
  | [] => (res.1, none)
  | n :: _ => (res.1, some (best.map (fun n => n.tile), n.clue_diff))

/-- A player: id plus display name. -/
structure Player where
  id : PlayerID
  name : String
deriving DecidableEq, Repr

/-- Describe some fields with a text for the user. -/
structure Hint where
  text : String
  tiles : List Hex
deriving DecidableEq, Repr

/-- The deduction state (`TryingClues`), restricted to the fields the
deduction and hint engine reads and writes. -/
structure TryingClues where
  map : Map
  /-- Manually entered clues. -/
  clues : List (PlayerID × Clue)
  /-- True: we know the clue; false: the clue should be deduced. -/
  known_clues : List (PlayerID × Bool)
  /-- Cache for clues deduced from answers. -/
  deduced_clues : List (PlayerID × List Clue)
  /-- True if the game is played with inverted clues. -/
  with_inverted : Bool
  players : List Player
  hints : List Hint
  /-- The player that is using this software. -/
  user : PlayerID
deriving DecidableEq, Repr

/-- Set all answers of every tile to `Unknown` for every player
(`TryingClues::prefill_answers`). -/
def TryingClues.prefill_answers (s : TryingClues) : TryingClues :=
  { s with map := ⟨s.map.tiles.map (fun t =>
      { t with answers := s.players.foldl (fun a p => ainsert p.id Answer.Unknown a) t.answers })⟩ }

/-- Build a list of possible clues for each player according to their given
answers (`TryingClues::deduce_clues`). -/
def TryingClues.deduce_clues (s : TryingClues) : TryingClues :=
  { s with deduced_clues := s.players.foldl (fun d p =>
      pinsert p.id (s.map.clues_for_player p.id s.with_inverted) d) s.deduced_clues }

/-- The declared clues of the players whose clue is marked known, in player
order (the `filter_map` at the head of the known-clue pass of
`TryingClues::update_map_from_clues`). -/
def TryingClues.known_clue_list (s : TryingClues) : List Clue :=
  s.players.filterMap (fun p =>
    if (plookup p.id s.known_clues).getD false then plookup p.id s.clues else none)

/-- One iteration of the known-clue pass of
`TryingClues::update_map_from_clues`: read the tile at index `i`, and mark
it small when the clue does not apply at its position. -/
def mark_step (clue : Clue) (m' : Map) (i : Nat) : Map :=
  match m'.tiles[i]? with
  | none => m'
  | some t =>
    if m'.clue_applies clue t.position then m' else m'.setTileSmall i true

/-- Mark as small every tile at which the given clue does not apply (one
round of the known-clue pass of `TryingClues::update_map_from_clues`). -/
def Map.mark_small_where (m : Map) (clue : Clue) : Map :=
  (List.range m.tiles.length).foldl (mark_step clue) m

/-- Inner loop body of the deduced-clue pass: mark tile `i` (at position
`pos`) small when none of player `pl`'s deduced clues applies there. -/
def deduced_inner_step (deduced : List (PlayerID × List Clue)) (pos : Hex) (i : Nat)
    (m'' : Map) (pl : Player) : Map :=
  if ((plookup pl.id deduced).getD []).any (fun clue => m''.clue_applies clue pos)
  then m'' else m''.setTileSmall i true

/-- One iteration of the deduced-clue pass: read the tile at index `i` and
run every player's check against its position. -/
def deduced_step (players : List Player) (deduced : List (PlayerID × List Clue))
    (m' : Map) (i : Nat) : Map :=
  match m'.tiles[i]? with
  | none => m'
  | some t => players.foldl (deduced_inner_step deduced t.position i) m'

/-- Mark as small every tile at which, for some player, none of that
player's deduced clues applies (the deduced-clue pass of
`TryingClues::update_map_from_clues`). -/
def Map.mark_small_deduced (m : Map) (players : List Player)
    (deduced : List (PlayerID × List Clue)) : Map :=
  (List.range m.tiles.length).foldl (deduced_step players deduced) m

/-- Recompute the possibility overlay
(`TryingClues::update_map_from_clues`): reset every `small` flag, then mark
small the tiles violating a known clue, then the tiles at which some
player has no applicable deduced clue. -/
def TryingClues.update_map_from_clues (s : TryingClues) : TryingClues :=
  let m0 : Map := ⟨s.map.tiles.map (fun t => { t with small := false })⟩
  let m1 := s.known_clue_list.foldl (fun m clue => m.mark_small_where clue) m0
  let m2 := m1.mark_small_deduced s.players s.deduced_clues
  { s with map := m2 }

/-- One opponent round of `TryingClues::calculate_hints`: run the question
computation on the current map and append the hint when one is produced. -/
def hint_step (wi : Bool) (acc : Map × List Hint) (player : Player) : Map × List Hint :=
  match (acc.1).best_question player.id wi with
  | (m', none) => (m', acc.2)
  | (m', some (tiles, at_least, at_most)) =>
    let text :=
      if at_least = at_most then
        "Ask " ++ player.name ++ " here to rule out " ++ toString at_least ++ " clues."
      else
        "Ask " ++ player.name ++ " here to rule out " ++ toString at_least ++
          " to " ++ toString at_most ++ " clues."
    (m', acc.2 ++ [⟨text, tiles⟩])

/-- Calculate hints (`TryingClues::calculate_hints`): one question hint per
opponent kept when useful, then the least-information hint for the user. -/
def TryingClues.calculate_hints (s : TryingClues) : TryingClues :=
  let opponents := s.players.filter (fun p => p.id ≠ s.user)
  let r1 := opponents.foldl (hint_step s.with_inverted) (s.map, [])
  let r2 := (r1.1).quietest_tile s.user s.with_inverted
  let hints2 :=
    match r2.2 with
    | none => r1.2
    | some (tiles, diff) =>
      let text :=
        if diff = 0 then "Place a \x27no\x27 here to reveal no new information."
        else "Place a \x27no\x27 here to rule out " ++ toString diff ++ " of your clues."
      r1.2 ++ [⟨text, tiles⟩]
  { s with map := r2.1, hints := hints2 }

/-- The clue catalog as the specification words it: the five terrain
singles, the ten unordered pairs of distinct terrains in combinatorial
order, EitherAnimal, the two animals, one StructureKind clue per present
kind and one StructureColor clue per present color, all non-inverted; then,
if `with_inverted`, the same sequence again inverted. -/
def clue_catalog_spec (structure_colors : List StructureColor)
    (structure_kinds : List StructureKind) (with_inverted : Bool) : List Clue :=
  let base : List ClueKind :=
    [ClueKind.Terrain .Desert, ClueKind.Terrain .Forest, ClueKind.Terrain .Water,
      ClueKind.Terrain .Swamp, ClueKind.Terrain .Mountain,
      ClueKind.TwoTerrains .Desert .Forest, ClueKind.TwoTerrains .Desert .Water,
      ClueKind.TwoTerrains .Desert .Swamp, ClueKind.TwoTerrains .Desert .Mountain,
      ClueKind.TwoTerrains .Forest .Water, ClueKind.TwoTerrains .Forest .Swamp,
      ClueKind.TwoTerrains .Forest .Mountain, ClueKind.TwoTerrains .Water .Swamp,
      ClueKind.TwoTerrains .Water .Mountain, ClueKind.TwoTerrains .Swamp .Mountain,
      ClueKind.EitherAnimal, ClueKind.Animal .Bear, ClueKind.Animal .Cougar]
    ++ structure_kinds.map ClueKind.StructureKind
    ++ structure_colors.map ClueKind.StructureColor
  base.map (fun k => ⟨k, false⟩) ++
    (if with_inverted then base.map (fun k => ⟨k, true⟩) else [])

/-- Field-wise description of a tile after a small-flag pass: statics and
answers unchanged, small flag as computed. -/
def TileVal (t t' : Tile) (b : Bool) : Prop :=
  TileStatic t t' ∧ t'.answers = t.answers ∧ t'.small = b

/-- Example deduction state: one player (id 1) whose clue `Terrain(Desert)`
is known, with the same clue as the single deduced candidate. -/
def exState : TryingClues :=
  ⟨exMap, [(1, ⟨.Terrain .Desert, false⟩)], [(1, true)],
    [(1, [⟨.Terrain .Desert, false⟩])], false, [⟨1, "B"⟩], [], 1⟩

/-- Evolution of a tile under the hint computation: statics and the small
flag unchanged; each player's stored answer unchanged, except that a
missing entry may become an explicit `Unknown`. -/
def TileEvolG (t t' : Tile) : Prop :=
  TileStatic t t' ∧ t'.small = t.small ∧
  ∀ q : PlayerID, alookup q t'.answers = alookup q t.answers ∨
    (alookup q t.answers = none ∧ alookup q t'.answers = some .Unknown)

/-- Evolution of a map under the hint computation. -/
def AnsEvol (m m' : Map) : Prop :=
  List.Forall₂ TileEvolG m.tiles m'.tiles

/-- Is the tile at index `i` eligible for a hypothetical question for
player `p` (present, with effective answer `Unknown`)? -/
def eligible (m : Map) (p : PlayerID) (i : Nat) : Bool :=
  match m.tiles[i]? with
  | some t => effA p t == Answer.Unknown
  | none => false

/-- Position of the tile at index `i` (an arbitrary default off the map). -/
def posAt (m : Map) (i : Nat) : Hex :=
  match m.tiles[i]? with
  | some t => t.position
  | none => ⟨0, 0⟩

/-- Length of the candidate list after hypothetically storing answer `a`
for player `p` on the tile at index `i` of the original map. -/
def sim_len (m : Map) (p : PlayerID) (wi : Bool) (a : Answer) (i : Nat) : Nat :=
  ((m.setAnswerAt i p a).clues_for_player p wi).length

/-- The question entry the scan records for index `i`, expressed against
the original map. -/
def question_at (m : Map) (p : PlayerID) (wi : Bool) (L : Nat) (i : Nat) : Question :=
  ⟨posAt m i, abs_diff L (sim_len m p wi .No i), abs_diff L (sim_len m p wi .Yes i)⟩

/-- The no-scan entry the self-player scan records for index `i`. -/
def no_at (m : Map) (p : PlayerID) (wi : Bool) (L : Nat) (i : Nat) : No :=
  ⟨abs_diff L (sim_len m p wi .No i), posAt m i⟩

/-- A map on which player 1 has zero remaining candidate clues (the two
answered tiles exclude every catalog clue) while a third tile is still
unanswered. -/
def cexTile1 : Tile := ⟨⟨0, 0⟩, .Desert, none, none, false, [(1, .Yes)]⟩

def cexTile2 : Tile := ⟨⟨10, 0⟩, .Desert, none, none, false, [(1, .No)]⟩

def cexTile3 : Tile := ⟨⟨20, 0⟩, .Desert, none, none, false, []⟩

def cexMap : Map := ⟨[cexTile1, cexTile2, cexTile3]⟩

/-- A one-tile state whose single player (who is also the user) has no
stored answer on the tile. -/
def c8State : TryingClues :=
  ⟨⟨[⟨⟨0, 0⟩, .Desert, none, none, false, []⟩]⟩, [], [], [], false, [⟨0, "A"⟩], [], 0⟩

/-- A one-tile state with the user (id 0) and one opponent (id 1), neither
of whom has a stored answer on the tile. -/
def c10State : TryingClues :=
  ⟨⟨[⟨⟨0, 0⟩, .Desert, none, none, false, []⟩]⟩, [], [], [], false,
    [⟨0, "A"⟩, ⟨1, "B"⟩], [], 0⟩

theorem mem_intRange {d : Int} {r : Nat} : d ∈ intRange r ↔ d.natAbs ≤ r := by
  simp only [intRange, List.mem_map, List.mem_range]
  constructor
  · rintro ⟨i, hi, rfl⟩
    omega
  · intro hd
    exact ⟨(d + r).toNat, by omega, by omega⟩

theorem mem_hexDisk_shape {h center : Hex} {r : Nat} :
    h ∈ hexDisk center r ↔
      ∃ dx dy : Int, dx.natAbs ≤ r ∧ dy.natAbs ≤ r ∧ (dx + dy).natAbs ≤ r ∧
        h.x = center.x + dx ∧ h.y = center.y + dy := by
  simp only [hexDisk, List.mem_flatMap, List.mem_filterMap, mem_intRange,
    Option.ite_none_right_eq_some, Option.some.injEq]
  constructor
  · rintro ⟨dx, hdx, dy, ⟨hdy, hsum, heq⟩⟩
    exact ⟨dx, dy, hdx, hdy, hsum, by rw [← heq], by rw [← heq]⟩
  · rintro ⟨dx, dy, hdx, hdy, hsum, hx, hy⟩
    refine ⟨dx, hdx, dy, hdy, hsum, ?_⟩
    cases h
    simp only [Hex.mk.injEq]
    simp only at hx hy
    exact ⟨hx.symm, hy.symm⟩

theorem mem_hexDisk {h center : Hex} {r : Nat} :
    h ∈ hexDisk center r ↔ hexDist h center ≤ r := by
  rw [mem_hexDisk_shape]
  simp only [hexDist]
  constructor
  · intro hm
    obtain ⟨dx, dy, hdx, hdy, hsum, hx, hy⟩ := hm
    rw [hx, hy]
    have e1 : center.x + dx - center.x = dx := by omega
    have e2 : center.y + dy - center.y = dy := by omega
    rw [e1, e2]
    omega
  · intro hd
    exact ⟨h.x - center.x, h.y - center.y, by omega, by omega, by omega, by omega, by omega⟩

theorem TileStatic_refl (t : Tile) : TileStatic t t :=
  ⟨rfl, rfl, rfl, rfl⟩

theorem TileStatic_trans {a b c : Tile} (h1 : TileStatic a b) (h2 : TileStatic b c) :
    TileStatic a c :=
  ⟨h1.1.trans h2.1, h1.2.1.trans h2.2.1, h1.2.2.1.trans h2.2.2.1, h1.2.2.2.trans h2.2.2.2⟩

theorem forall₂_trans {α : Type} {R : α → α → Prop}
    (hR : ∀ a b c, R a b → R b c → R a c) :
    ∀ {l1 l2 l3 : List α}, List.Forall₂ R l1 l2 → List.Forall₂ R l2 l3 →
      List.Forall₂ R l1 l3 := by
  intro l1 l2 l3 h1
  induction h1 generalizing l3 with
  | nil => intro h2; cases h2; exact List.Forall₂.nil
  | cons hab hF ih =>
    intro h2
    cases h2 with
    | cons hbc hF2 => exact List.Forall₂.cons (hR _ _ _ hab hbc) (ih hF2)

theorem StaticEq_refl (m : Map) : StaticEq m m :=
  List.forall₂_same.mpr (fun t _ => TileStatic_refl t)

theorem StaticEq_trans {a b c : Map} (h1 : StaticEq a b) (h2 : StaticEq b c) :
    StaticEq a c :=
  forall₂_trans (fun a b c u v => @TileStatic_trans a b c u v) h1 h2

theorem find?_rel {α β : Type} {R : α → β → Prop} {p : α → Bool} {q : β → Bool}
    {l : List α} {l' : List β} (h : List.Forall₂ R l l')
    (hpq : ∀ a b, R a b → p a = q b) :
    OptRel R (l.find? p) (l'.find? q) := by
  induction h with
  | nil => exact OptRel.none
  | cons hR hF ih =>
    rename_i a b as bs
    by_cases hpa : p a = true
    · have hqb : q b = true := by rw [← hpq a b hR]; exact hpa
      rw [List.find?_cons_of_pos _ hpa, List.find?_cons_of_pos _ hqb]
      exact OptRel.some hR
    · have hqb : ¬ q b = true := by rw [← hpq a b hR]; exact hpa
      rw [List.find?_cons_of_neg _ hpa, List.find?_cons_of_neg _ hqb]
      exact ih

theorem any_rel {α β : Type} {R : α → β → Prop} {p : α → Bool} {q : β → Bool}
    {l : List α} {l' : List β} (h : List.Forall₂ R l l')
    (hpq : ∀ a b, R a b → p a = q b) :
    l.any p = l'.any q := by
  induction h with
  | nil => rfl
  | cons hR hF ih => simp only [List.any_cons, hpq _ _ hR, ih]

theorem filterMap_rel {α β : Type} {γ : Type} {R : α → β → Prop}
    {f : α → Option γ} {g : β → Option γ}
    {l : List α} {l' : List β} (h : List.Forall₂ R l l')
    (hfg : ∀ a b, R a b → f a = g b) :
    l.filterMap f = l'.filterMap g := by
  induction h with
  | nil => rfl
  | cons hR hF ih => simp only [List.filterMap_cons, hfg _ _ hR, ih]

theorem list_any_congr {α : Type} {l : List α} {f g : α → Bool}
    (h : ∀ x ∈ l, f x = g x) : l.any f = l.any g := by
  induction l with
  | nil => rfl
  | cons x xs ih =>
    simp only [List.any_cons, h x (List.mem_cons_self x xs),
      ih (fun y hy => h y (List.mem_cons_of_mem x hy))]

theorem Map.get_rel {m m' : Map} (h : StaticEq m m') (pos : Hex) :
    OptRel TileStatic (m.get pos) (m'.get pos) :=
  find?_rel h (fun a b hR => by simp [hR.1])

theorem OptRel.elim_cases {α β : Type} {R : α → β → Prop} {o1 : Option α} {o2 : Option β}
    (h : OptRel R o1 o2) :
    (o1 = Option.none ∧ o2 = Option.none) ∨
      ∃ a b, o1 = Option.some a ∧ o2 = Option.some b ∧ R a b := by
  cases h with
  | none => exact Or.inl ⟨rfl, rfl⟩
  | some hR => exact Or.inr ⟨_, _, rfl, rfl, hR⟩

theorem Map.any_congr {m m' : Map} (h : StaticEq m m') {c c' : Tile → Bool}
    (hc : ∀ t t', TileStatic t t' → c t = c' t') (pos : Hex) (r : Nat) :
    m.any pos r c = m'.any pos r c' := by
  unfold Map.any
  apply any_rel (List.forall₂_same.mpr (fun x _ => rfl))
  intro a b hab
  subst hab
  rcases (Map.get_rel h a).elim_cases with ⟨h1, h2⟩ | ⟨ta, tb, h1, h2, hR⟩
  · rw [h1, h2]
  · rw [h1, h2]
    exact hc _ _ hR

theorem Map.kind_applies_congr {m m' : Map} (h : StaticEq m m') (k : ClueKind) (pos : Hex) :
    m.kind_applies k pos = m'.kind_applies k pos := by
  cases k with
  | Terrain t =>
    simp only [Map.kind_applies]
    exact Map.any_congr h (fun a b hR => by rw [hR.2.1]) pos 1
  | TwoTerrains a b =>
    simp only [Map.kind_applies]
    rcases (Map.get_rel h pos).elim_cases with ⟨h1, h2⟩ | ⟨ta, tb, h1, h2, hR⟩
    · rw [h1, h2]
    · rw [h1, h2]
      simp only [hR.2.1]
  | EitherAnimal =>
    simp only [Map.kind_applies]
    exact Map.any_congr h (fun a b hR => by rw [hR.2.2.1]) pos 1
  | Animal a =>
    simp only [Map.kind_applies]
    exact Map.any_congr h (fun a b hR => by rw [hR.2.2.1]) pos 2
  | StructureKind k =>
    simp only [Map.kind_applies]
    exact Map.any_congr h (fun a b hR => by rw [hR.2.2.2]) pos 2
  | StructureColor c =>
    simp only [Map.kind_applies]
    exact Map.any_congr h (fun a b hR => by rw [hR.2.2.2]) pos 3

theorem Map.clue_applies_congr {m m' : Map} (h : StaticEq m m') (clue : Clue) (pos : Hex) :
    m.clue_applies clue pos = m'.clue_applies clue pos := by
  unfold Map.clue_applies
  rw [Map.kind_applies_congr h]

theorem Map.structure_colors_congr {m m' : Map} (h : StaticEq m m') :
    m.structure_colors = m'.structure_colors := by
  unfold Map.structure_colors
  rw [filterMap_rel h (fun a b hR => hR.2.2.2)]

theorem Map.structure_kinds_congr {m m' : Map} (h : StaticEq m m') :
    m.structure_kinds = m'.structure_kinds := by
  unfold Map.structure_kinds
  rw [filterMap_rel h (fun a b hR => hR.2.2.2)]

theorem EffEq_staticEq {p : PlayerID} {m m' : Map} (h : EffEq p m m') : StaticEq m m' :=
  List.Forall₂.imp (fun _ _ hR => hR.1) h

theorem contradicts_unknown (b : Bool) : contradicts .Unknown b = false := rfl

theorem match_contra_eq (p : PlayerID) (t : Tile) (b : Bool) :
    (match alookup p t.answers with
      | some answer => contradicts answer b
      | none => false) = contradicts (effA p t) b := by
  cases h : alookup p t.answers with
  | none => simp [effA, h, contradicts_unknown]
  | some a => simp [effA, h]

theorem Map.clues_for_player_congr {p : PlayerID} {m m' : Map} (h : EffEq p m m')
    (wi : Bool) : m.clues_for_player p wi = m'.clues_for_player p wi := by
  unfold Map.clues_for_player
  rw [Map.structure_colors_congr (EffEq_staticEq h), Map.structure_kinds_congr (EffEq_staticEq h)]
  apply List.filter_congr
  intro clue _
  have : m.tiles.any (fun t =>
      match alookup p t.answers with
      | some answer => contradicts answer (m.clue_applies clue t.position)
      | none => false) = m'.tiles.any (fun t =>
      match alookup p t.answers with
      | some answer => contradicts answer (m'.clue_applies clue t.position)
      | none => false) := by
    apply any_rel h
    intro a b hab
    rw [match_contra_eq, match_contra_eq, hab.2, hab.1.1,
      Map.clue_applies_congr (EffEq_staticEq h)]
  rw [this]

theorem find?_position_eq_some {l : List Tile}
    (hnd : (l.map (fun t => t.position)).Nodup) {pos : Hex} {t : Tile} :
    l.find? (fun tile => tile.position = pos) = some t ↔ t ∈ l ∧ t.position = pos := by
  induction l with
  | nil => simp
  | cons a as ih =>
    rw [List.map_cons, List.nodup_cons] at hnd
    by_cases hpa : a.position = pos
    · rw [List.find?_cons_of_pos _ (by simpa using hpa)]
      constructor
      · intro h
        injection h with h
        subst h
        exact ⟨List.mem_cons_self _ _, hpa⟩
      · rintro ⟨hm, hpt⟩
        rcases List.mem_cons.mp hm with h | h
        · rw [h]
        · exfalso
          apply hnd.1
          have : t.position ∈ as.map (fun t => t.position) := List.mem_map_of_mem _ h
          rw [hpt, ← hpa] at this
          exact this
    · rw [List.find?_cons_of_neg _ (by simpa using hpa)]
      rw [ih hnd.2]
      constructor
      · rintro ⟨hm, hpt⟩
        exact ⟨List.mem_cons_of_mem _ hm, hpt⟩
      · rintro ⟨hm, hpt⟩
        rcases List.mem_cons.mp hm with h | h
        · subst h
          exact absurd hpt hpa
        · exact ⟨h, hpt⟩

theorem Map.get_eq_some_iff {m : Map}
    (hnd : (m.tiles.map (fun t => t.position)).Nodup) {pos : Hex} {t : Tile} :
    m.get pos = some t ↔ t ∈ m.tiles ∧ t.position = pos := by
  unfold Map.get
  exact find?_position_eq_some hnd

theorem Map.any_iff {m : Map}
    (hnd : (m.tiles.map (fun t => t.position)).Nodup)
    {pos : Hex} {r : Nat} {c : Tile → Bool} :
    m.any pos r c = true ↔ ∃ t ∈ m.tiles, hexDist t.position pos ≤ r ∧ c t = true := by
  unfold Map.any
  rw [List.any_eq_true]
  constructor
  · rintro ⟨check, hcheck, hcond⟩
    cases hg : m.get check with
    | none => rw [hg] at hcond; exact absurd hcond (by simp)
    | some t =>
      rw [hg] at hcond
      obtain ⟨htm, hpos⟩ := (Map.get_eq_some_iff hnd).mp hg
      exact ⟨t, htm, by rw [hpos]; exact mem_hexDisk.mp hcheck, hcond⟩
  · rintro ⟨t, htm, hdist, hc⟩
    refine ⟨t.position, mem_hexDisk.mpr hdist, ?_⟩
    rw [(Map.get_eq_some_iff hnd).mpr ⟨htm, rfl⟩]
    exact hc

theorem Map.kind_applies_iff {m : Map}
    (hnd : (m.tiles.map (fun t => t.position)).Nodup) (k : ClueKind) (pos : Hex) :
    m.kind_applies k pos = true ↔ kind_holds_spec m k pos := by
  cases k with
  | Terrain t =>
    simp only [Map.kind_applies, kind_holds_spec]
    rw [Map.any_iff hnd]
    simp only [decide_eq_true_eq]
  | TwoTerrains a b =>
    simp only [Map.kind_applies, kind_holds_spec]
    constructor
    · intro hm
      cases hg : m.get pos with
      | none => rw [hg] at hm; exact absurd hm (by simp)
      | some tile =>
        rw [hg] at hm
        obtain ⟨htm, hpos⟩ := (Map.get_eq_some_iff hnd).mp hg
        refine ⟨tile, htm, hpos, ?_⟩
        simpa using hm
    · rintro ⟨tile, htm, hpos, hab⟩
      rw [(Map.get_eq_some_iff hnd).mpr ⟨htm, hpos⟩]
      simpa using hab
  | EitherAnimal =>
    simp only [Map.kind_applies, kind_holds_spec]
    rw [Map.any_iff hnd]
    simp only [Option.isSome_iff_exists]
  | Animal a =>
    simp only [Map.kind_applies, kind_holds_spec]
    rw [Map.any_iff hnd]
    simp only [decide_eq_true_eq]
  | StructureKind k =>
    simp only [Map.kind_applies, kind_holds_spec]
    rw [Map.any_iff hnd]
    constructor
    · rintro ⟨tile, htm, hdist, hc⟩
      refine ⟨tile, htm, hdist, ?_⟩
      cases hs : tile.structure_ with
      | none => rw [hs] at hc; exact absurd hc (by simp)
      | some s =>
        rw [hs] at hc
        simp only [Option.map, Option.getD, beq_iff_eq] at hc
        exact ⟨s, rfl, hc⟩
    · rintro ⟨tile, htm, hdist, s, hs, hk⟩
      refine ⟨tile, htm, hdist, ?_⟩
      rw [hs]
      simp [hk]
  | StructureColor c =>
    simp only [Map.kind_applies, kind_holds_spec]
    rw [Map.any_iff hnd]
    constructor
    · rintro ⟨tile, htm, hdist, hc⟩
      refine ⟨tile, htm, hdist, ?_⟩
      cases hs : tile.structure_ with
      | none => rw [hs] at hc; exact absurd hc (by simp)
      | some s =>
        rw [hs] at hc
        simp only [Option.map, Option.getD, beq_iff_eq] at hc
        exact ⟨s, rfl, hc⟩
    · rintro ⟨tile, htm, hdist, s, hs, hk⟩
      refine ⟨tile, htm, hdist, ?_⟩
      rw [hs]
      simp [hk]

/-- C1: for every clue and position, `clue_applies` returns the kind's base
spatial condition (Terrain: some tile within distance 1 has the terrain;
TwoTerrains: the tile at the position itself has one of the two terrains,
false if absent; EitherAnimal: some tile within distance 1 has an animal;
Animal: some tile within distance 2 has that animal; StructureKind: some
tile within distance 2 has a structure of that kind; StructureColor: some
tile within distance 3 has a structure of that color) XORed with the
inverted flag, and the result never depends on any tile's answers or small
flag. -/
theorem TileStatic_symm {a b : Tile} (h : TileStatic a b) : TileStatic b a :=
  ⟨h.1.symm, h.2.1.symm, h.2.2.1.symm, h.2.2.2.symm⟩

theorem StaticEq_symm {m m' : Map} (h : StaticEq m m') : StaticEq m' m :=
  (List.Forall₂.imp (fun _ _ hr => TileStatic_symm hr) h).flip

theorem ite_not_xor (A inv : Bool) (P : Prop) (hA : A = true ↔ P) :
    ((if inv then !A else A) = true ↔ Xor' P (inv = true)) := by
  rw [← hA]
  cases inv <;> cases A <;> simp [Xor']

/-- C1: for every clue and position, `clue_applies` returns the kind's base
spatial condition (Terrain: some tile within distance 1 has the terrain;
TwoTerrains: the tile at the position itself has one of the two terrains,
false if absent; EitherAnimal: some tile within distance 1 has an animal;
Animal: some tile within distance 2 has that animal; StructureKind: some
tile within distance 2 has a structure of that kind; StructureColor: some
tile within distance 3 has a structure of that color) XORed with the
inverted flag, and the result never depends on any tile's answers or small
flag. -/
theorem C1_clue_applies_spec (m : Map) (clue : Clue) (pos : Hex)
    (hnd : (m.tiles.map (fun t => t.position)).Nodup) :
    (m.clue_applies clue pos = true ↔
      Xor' (kind_holds_spec m clue.kind pos) (clue.inverted = true)) ∧
    (∀ m', StaticEq m m' → m'.clue_applies clue pos = m.clue_applies clue pos) := by
  constructor
  · exact ite_not_xor _ clue.inverted _ (Map.kind_applies_iff hnd clue.kind pos)
  · intro m' hst
    exact Map.clue_applies_congr (StaticEq_symm hst) clue pos

theorem bool_eq_of_iff {a b : Bool} (h : a = true ↔ b = true) : a = b := by
  cases a <;> cases b <;> simp_all

theorem alookup_ainsert_self (p : PlayerID) (a : Answer) (l : List (PlayerID × Answer)) :
    alookup p (ainsert p a l) = some a := by
  induction l with
  | nil => simp [ainsert, alookup]
  | cons kv rest ih =>
    obtain ⟨k, v⟩ := kv
    by_cases hk : k = p
    · subst hk
      simp [ainsert, alookup]
    · simp only [ainsert, hk, if_false]
      simp only [alookup, hk, if_false]
      exact ih

theorem alookup_ainsert_other {q p : PlayerID} (h : q ≠ p) (a : Answer)
    (l : List (PlayerID × Answer)) :
    alookup q (ainsert p a l) = alookup q l := by
  induction l with
  | nil =>
    show (if p = q then some a else (none : Option Answer)) = none
    exact if_neg (fun hh => h hh.symm)
  | cons kv rest ih =>
    obtain ⟨k, v⟩ := kv
    by_cases hk : k = p
    · subst hk
      simp only [ainsert, if_pos rfl]
      simp only [alookup]
      rw [if_neg (fun hh => h hh.symm), if_neg (fun hh => h hh.symm)]
    · simp only [ainsert, hk, if_false]
      simp only [alookup]
      by_cases hkq : k = q
      · rw [if_pos hkq, if_pos hkq]
      · rw [if_neg hkq, if_neg hkq]
        exact ih

theorem ainsert_ainsert (p : PlayerID) (a b : Answer) (l : List (PlayerID × Answer)) :
    ainsert p a (ainsert p b l) = ainsert p a l := by
  induction l with
  | nil => simp [ainsert]
  | cons kv rest ih =>
    obtain ⟨k, v⟩ := kv
    by_cases hk : k = p
    · subst hk
      simp [ainsert]
    · simp only [ainsert, hk, if_false, ih]

theorem ainsert_of_alookup_eq {p : PlayerID} {a : Answer} {l : List (PlayerID × Answer)}
    (h : alookup p l = some a) : ainsert p a l = l := by
  induction l with
  | nil => simp [alookup] at h
  | cons kv rest ih =>
    obtain ⟨k, v⟩ := kv
    by_cases hk : k = p
    · subst hk
      have hv : v = a := by
        simp only [alookup] at h
        simpa using h
      subst hv
      simp [ainsert]
    · simp only [alookup, hk, if_false] at h
      simp only [ainsert, hk, if_false, ih h]

theorem getElem?_listModify {α : Type} (f : α → α) (i j : Nat) (l : List α) :
    (listModify f i l)[j]? = if j = i then (l[j]?).map f else l[j]? := by
  induction l generalizing i j with
  | nil => simp [listModify]
  | cons x xs ih =>
    cases i with
    | zero =>
      cases j with
      | zero => simp [listModify]
      | succ n => simp [listModify]
    | succ n =>
      cases j with
      | zero => simp [listModify]
      | succ mj =>
        simp only [listModify, List.getElem?_cons_succ, ih]
        by_cases hj : mj = n
        · simp [hj]
        · simp [hj]

theorem length_listModify {α : Type} (f : α → α) (i : Nat) (l : List α) :
    (listModify f i l).length = l.length := by
  induction l generalizing i with
  | nil => simp [listModify]
  | cons x xs ih =>
    cases i with
    | zero => rfl
    | succ n => simp [listModify, ih]

theorem forall₂_listModify {α : Type} {R : α → α → Prop} (hrefl : ∀ x, R x x)
    {f : α → α} (hf : ∀ x, R x (f x)) (i : Nat) (l : List α) :
    List.Forall₂ R l (listModify f i l) := by
  induction l generalizing i with
  | nil =>
    have he : listModify f i ([] : List α) = [] := by simp [listModify]
    rw [he]
    exact List.Forall₂.nil
  | cons x xs ih =>
    cases i with
    | zero =>
      exact List.Forall₂.cons (hf x) (List.forall₂_same.mpr (fun y _ => hrefl y))
    | succ n => exact List.Forall₂.cons (hrefl x) (ih n)

theorem any_listModify {α : Type} (q : α → Bool) (g : α → α) (i : Nat) (l : List α)
    (x0 : α) (hx0 : l[i]? = some x0) (hq : q x0 = false) :
    (listModify g i l).any q = (l.any q || q (g x0)) := by
  induction l generalizing i with
  | nil => simp at hx0
  | cons x xs ih =>
    cases i with
    | zero =>
      simp only [List.getElem?_cons_zero, Option.some.injEq] at hx0
      subst hx0
      simp [listModify, List.any_cons, hq, Bool.or_comm]
    | succ n =>
      simp only [List.getElem?_cons_succ] at hx0
      simp [listModify, List.any_cons, ih n hx0, Bool.or_assoc]

theorem StaticEq.setAnswerAt (m : Map) (i : Nat) (p : PlayerID) (a : Answer) :
    StaticEq m (m.setAnswerAt i p a) := by
  show List.Forall₂ TileStatic m.tiles
    (listModify (fun t => { t with answers := ainsert p a t.answers }) i m.tiles)
  apply forall₂_listModify TileStatic_refl
  intro x
  exact ⟨rfl, rfl, rfl, rfl⟩

theorem StaticEq.setTileSmall (m : Map) (i : Nat) (b : Bool) :
    StaticEq m (m.setTileSmall i b) := by
  show List.Forall₂ TileStatic m.tiles
    (listModify (fun t => { t with small := b }) i m.tiles)
  apply forall₂_listModify TileStatic_refl
  intro x
  exact ⟨rfl, rfl, rfl, rfl⟩

theorem contra_entry_eq (p : PlayerID) (t : Tile) (b : Bool) :
    (match alookup p t.answers with
      | some answer => contradicts answer b
      | none => false) = contradicts (effA p t) b := by
  cases h : alookup p t.answers with
  | none => simp [effA, h, contradicts_unknown]
  | some a => simp [effA, h]

theorem Map.tiles_setAnswerAt (m : Map) (i : Nat) (p : PlayerID) (a : Answer) :
    (m.setAnswerAt i p a).tiles =
      listModify (fun t => { t with answers := ainsert p a t.answers }) i m.tiles := rfl

/-- Adding answer `a` for player `p` on tile `i` (whose effective answer was
`Unknown`) turns the candidate list into a filter of the previous candidate
list: exactly the clues not contradicted by the new answer survive. -/
theorem clues_setAnswer_eq (m : Map) {i : Nat} {t0 : Tile} (p : PlayerID) (wi : Bool)
    (a : Answer) (ht0 : m.tiles[i]? = some t0) (heff : effA p t0 = .Unknown) :
    (m.setAnswerAt i p a).clues_for_player p wi =
      (m.clues_for_player p wi).filter
        (fun c => !(contradicts a (m.clue_applies c t0.position))) := by
  have hst := StaticEq.setAnswerAt m i p a
  unfold Map.clues_for_player
  rw [← Map.structure_colors_congr hst, ← Map.structure_kinds_congr hst,
    List.filter_filter]
  apply List.filter_congr
  intro c hc
  have hclue : ∀ pos, (m.setAnswerAt i p a).clue_applies c pos = m.clue_applies c pos :=
    fun pos => Map.clue_applies_congr (StaticEq_symm hst) c pos
  have hany1 : (m.setAnswerAt i p a).tiles.any (fun t =>
      match alookup p t.answers with
      | some answer => contradicts answer ((m.setAnswerAt i p a).clue_applies c t.position)
      | none => false) = (m.setAnswerAt i p a).tiles.any (fun t =>
      match alookup p t.answers with
      | some answer => contradicts answer (m.clue_applies c t.position)
      | none => false) := by
    apply list_any_congr
    intro x _
    rw [hclue]
  rw [hany1, Map.tiles_setAnswerAt]
  rw [any_listModify _ _ i m.tiles t0 ht0 (by rw [contra_entry_eq, heff]; rfl)]
  have hmod : (match alookup p
        (ainsert p a t0.answers) with
      | some answer => contradicts answer
          (m.clue_applies c ({ t0 with answers := ainsert p a t0.answers } : Tile).position)
      | none => false) = contradicts a (m.clue_applies c t0.position) := by
    rw [alookup_ainsert_self]
  rw [hmod, Bool.not_or, Bool.and_comm]

/-- C6: adding one more non-Unknown answer for a player on a tile whose
effective answer was `Unknown` can only shrink (or keep equal) the size of
that player's candidate clue list. -/
theorem C6_filter_monotone (m : Map) (p : PlayerID) (wi : Bool) (i : Nat) (a : Answer)
    {t0 : Tile} (ht0 : m.tiles[i]? = some t0) (heff : effA p t0 = .Unknown) :
    ((m.setAnswerAt i p a).clues_for_player p wi).length ≤
      (m.clues_for_player p wi).length := by
  rw [clues_setAnswer_eq m p wi a ht0 heff]
  exact List.length_filter_le _ _

/-- C6 witness: on the two-tile example map, answering `Yes` at index 0 for
player 1 does not grow the candidate list. -/
theorem C6_filter_monotone_witness :
    ((exMap.setAnswerAt 0 1 .Yes).clues_for_player 1 false).length ≤
      (exMap.clues_for_player 1 false).length :=
  @C6_filter_monotone exMap 1 false 0 .Yes exTileCenter (by decide) (by decide)

theorem contra_false_iff (p : PlayerID) (t : Tile) (b : Bool) :
    ((match alookup p t.answers with
      | some answer => contradicts answer b
      | none => false) = false) ↔
    ((alookup p t.answers = some .Yes → b = true) ∧
      (alookup p t.answers = some .No → b = false)) := by
  cases h : alookup p t.answers with
  | none => simp [h]
  | some a => cases a <;> cases b <;> simp [h, contradicts]

/-- C3: `clues_for_player` returns exactly the clues of the full catalog
that are consistent with every answered tile (`Yes` forces the clue to
apply, `No` forces it not to apply, `Unknown` imposes nothing); the output
is a sublist of the catalog (catalog order preserved), and a player with no
non-Unknown answers receives the entire catalog. -/
theorem C3_clues_for_player_spec (m : Map) (p : PlayerID) (wi : Bool) :
    (m.clues_for_player p wi =
      (Clue.all m.structure_colors m.structure_kinds wi).filter (fun c =>
        decide (∀ t ∈ m.tiles,
          (alookup p t.answers = some .Yes → m.clue_applies c t.position = true) ∧
          (alookup p t.answers = some .No → m.clue_applies c t.position = false)))) ∧
    List.Sublist (m.clues_for_player p wi)
      (Clue.all m.structure_colors m.structure_kinds wi) ∧
    ((∀ t ∈ m.tiles, ∀ a, alookup p t.answers = some a → a = .Unknown) →
      m.clues_for_player p wi = Clue.all m.structure_colors m.structure_kinds wi) := by
  refine ⟨?_, ?_, ?_⟩
  · unfold Map.clues_for_player
    apply List.filter_congr
    intro c hc
    apply bool_eq_of_iff
    rw [decide_eq_true_eq, Bool.not_eq_true', List.any_eq_false]
    exact forall_congr' fun t => imp_congr_right fun ht => by
      rw [Bool.not_eq_true]
      exact contra_false_iff p t _
  · unfold Map.clues_for_player
    exact List.filter_sublist _
  · intro h
    unfold Map.clues_for_player
    apply List.filter_eq_self.mpr
    intro c hc
    rw [Bool.not_eq_true', List.any_eq_false]
    intro t ht
    rw [Bool.not_eq_true]
    refine (contra_false_iff p t _).mpr ⟨?_, ?_⟩
    · intro hy
      exact absurd (h t ht _ hy) (by decide)
    · intro hn
      exact absurd (h t ht _ hn) (by decide)

/-- C3 witness: on the two-tile example map (no answers given), player 1
receives the full catalog, which is also the stated filter of the catalog. -/
theorem C3_clues_for_player_spec_witness :
    (exMap.clues_for_player 1 false =
      (Clue.all exMap.structure_colors exMap.structure_kinds false).filter (fun c =>
        decide (∀ t ∈ exMap.tiles,
          (alookup 1 t.answers = some .Yes → exMap.clue_applies c t.position = true) ∧
          (alookup 1 t.answers = some .No → exMap.clue_applies c t.position = false)))) ∧
    List.Sublist (exMap.clues_for_player 1 false)
      (Clue.all exMap.structure_colors exMap.structure_kinds false) ∧
    ((∀ t ∈ exMap.tiles, ∀ a, alookup 1 t.answers = some a → a = .Unknown) →
      exMap.clues_for_player 1 false =
        Clue.all exMap.structure_colors exMap.structure_kinds false) :=
  C3_clues_for_player_spec exMap 1 false

/-- C4: `Map::any` returns true iff at least one tile present on the map at
hex-distance at most `r` from the center (the center included) satisfies
the predicate; positions with no tile never satisfy any predicate. -/
theorem C4_any_spec (m : Map) (pos : Hex) (r : Nat) (c : Tile → Bool)
    (hnd : (m.tiles.map (fun t => t.position)).Nodup) :
    m.any pos r c = true ↔ ∃ t ∈ m.tiles, hexDist t.position pos ≤ r ∧ c t = true :=
  Map.any_iff hnd

/-- C4 witness: on the two-tile example map, the radius-1 animal query at
the center. -/
theorem C4_any_spec_witness :
    exMap.any ⟨0, 0⟩ 1 (fun t => t.animal.isSome) = true ↔
      ∃ t ∈ exMap.tiles, hexDist t.position ⟨0, 0⟩ ≤ 1 ∧ t.animal.isSome = true :=
  C4_any_spec exMap ⟨0, 0⟩ 1 (fun t => t.animal.isSome) (by decide)

/-- C1 witness: the spec scenario clue `Terrain(Forest)` at the center of
the two-tile example map. -/
theorem C1_clue_applies_spec_witness :
    (exMap.clue_applies ⟨.Terrain .Forest, false⟩ ⟨0, 0⟩ = true ↔
      Xor' (kind_holds_spec exMap (ClueKind.Terrain .Forest) ⟨0, 0⟩) (false = true)) ∧
    (∀ m', StaticEq exMap m' →
      m'.clue_applies ⟨.Terrain .Forest, false⟩ ⟨0, 0⟩ =
        exMap.clue_applies ⟨.Terrain .Forest, false⟩ ⟨0, 0⟩) :=
  C1_clue_applies_spec exMap ⟨.Terrain .Forest, false⟩ ⟨0, 0⟩ (by decide)

theorem mem_kind_all {structure_colors : List StructureColor}
    {structure_kinds : List StructureKind} {ck : ClueKind}
    (hck : ck ∈ ClueKind.all structure_colors structure_kinds) :
    (∀ k, ck = ClueKind.StructureKind k → k ∈ structure_kinds) ∧
    (∀ col, ck = ClueKind.StructureColor col → col ∈ structure_colors) := by
  unfold ClueKind.all at hck
  simp only [List.append_assoc, List.mem_append, List.mem_map, List.mem_cons,
    List.mem_singleton] at hck
  constructor
  · intro k hk
    subst hk
    rcases hck with ⟨t, _, ht⟩ | ⟨ts, _, ht⟩ | (h | h) | ⟨a, _, ht⟩ | ⟨k', hk', ht⟩ | ⟨c', _, ht⟩
    · exact absurd ht (by intro hh; cases hh)
    · exact absurd ht (by intro hh; cases hh)
    · cases h
    · cases h
    · exact absurd ht (by intro hh; cases hh)
    · cases ht; exact hk'
    · exact absurd ht (by intro hh; cases hh)
  · intro col hcol
    subst hcol
    rcases hck with ⟨t, _, ht⟩ | ⟨ts, _, ht⟩ | (h | h) | ⟨a, _, ht⟩ | ⟨k', _, ht⟩ | ⟨c', hc', ht⟩
    · exact absurd ht (by intro hh; cases hh)
    · exact absurd ht (by intro hh; cases hh)
    · cases h
    · cases h
    · exact absurd ht (by intro hh; cases hh)
    · exact absurd ht (by intro hh; cases hh)
    · cases ht; exact hc'

theorem mem_clue_all_kind {structure_colors : List StructureColor}
    {structure_kinds : List StructureKind} {wi : Bool} {c : Clue}
    (hc : c ∈ Clue.all structure_colors structure_kinds wi) :
    c.kind ∈ ClueKind.all structure_colors structure_kinds := by
  unfold Clue.all at hc
  rcases List.mem_append.mp hc with h | h
  · obtain ⟨k, hk, rfl⟩ := List.mem_map.mp h
    exact hk
  · split at h
    · obtain ⟨k, hk, rfl⟩ := List.mem_map.mp h
      exact hk
    · cases h

/-- C5: the clue catalog enumerates, in the fixed deterministic order the
specification describes, the terrain singles, the unordered distinct
terrain pairs in combinatorial order, EitherAnimal, the animals, one
StructureKind clue per present kind and one StructureColor clue per
present color, all non-inverted, followed (when `with_inverted`) by the
same sequence inverted; no structure clue for an absent kind or color is
ever produced. -/
theorem C5_catalog_spec (structure_colors : List StructureColor)
    (structure_kinds : List StructureKind) (with_inverted : Bool) :
    (Clue.all structure_colors structure_kinds with_inverted =
      clue_catalog_spec structure_colors structure_kinds with_inverted) ∧
    (∀ c ∈ Clue.all structure_colors structure_kinds with_inverted,
      (∀ k, c.kind = ClueKind.StructureKind k → k ∈ structure_kinds) ∧
      (∀ col, c.kind = ClueKind.StructureColor col → col ∈ structure_colors)) := by
  constructor
  · unfold Clue.all clue_catalog_spec ClueKind.all
    simp only [Terrain.iter, Animal.iter, pairs2, List.map_cons, List.map_nil,
      List.nil_append, List.cons_append, List.map_append, List.append_assoc,
      List.append_nil]
  · intro c hc
    exact mem_kind_all (mem_clue_all_kind hc)

/-- C5 witness: the catalog over one present color and both kinds, with
inverted clues enabled. -/
theorem C5_catalog_spec_witness :
    (Clue.all [.Black] [.Shack, .Stone] true =
      clue_catalog_spec [.Black] [.Shack, .Stone] true) ∧
    (∀ c ∈ Clue.all [.Black] [.Shack, .Stone] true,
      (∀ k, c.kind = ClueKind.StructureKind k → k ∈ [StructureKind.Shack, .Stone]) ∧
      (∀ col, c.kind = ClueKind.StructureColor col → col ∈ [StructureColor.Black])) :=
  C5_catalog_spec [.Black] [.Shack, .Stone] true

theorem Map.tiles_setTileSmall (m : Map) (i : Nat) (b : Bool) :
    (m.setTileSmall i b).tiles = listModify (fun t => { t with small := b }) i m.tiles := rfl

theorem update_small_self (t : Tile) : ({ t with small := t.small } : Tile) = t := rfl

theorem mark_step_none {clue : Clue} {m : Map} {i : Nat} (hti : m.tiles[i]? = none) :
    mark_step clue m i = m := by
  unfold mark_step
  rw [hti]

theorem mark_step_applies {clue : Clue} {m : Map} {i : Nat} {t : Tile}
    (hti : m.tiles[i]? = some t) (happ : m.clue_applies clue t.position = true) :
    mark_step clue m i = m := by
  unfold mark_step
  rw [hti]
  simp [happ]

theorem mark_step_not {clue : Clue} {m : Map} {i : Nat} {t : Tile}
    (hti : m.tiles[i]? = some t) (happ : m.clue_applies clue t.position = false) :
    mark_step clue m i = m.setTileSmall i true := by
  unfold mark_step
  rw [hti]
  simp [happ]

theorem mark_where_fold (clue : Clue) (is : List Nat) (m : Map) :
    StaticEq m (is.foldl (mark_step clue) m) ∧
    ∀ (j : Nat) (t : Tile), m.tiles[j]? = some t →
      (is.foldl (mark_step clue) m).tiles[j]? =
      some ({ t with small :=
        t.small || (decide (j ∈ is) && !(m.clue_applies clue t.position)) } : Tile) := by
  induction is generalizing m with
  | nil =>
    refine ⟨StaticEq_refl m, ?_⟩
    intro j t ht
    simpa [update_small_self] using ht
  | cons i rest ih =>
    simp only [List.foldl_cons]
    cases hti : m.tiles[i]? with
    | none =>
      rw [mark_step_none hti]
      obtain ⟨ihs, ihv⟩ := ih m
      refine ⟨ihs, ?_⟩
      intro j t ht
      have hji : j ≠ i := by
        intro hh
        rw [hh, hti] at ht
        cases ht
      rw [ihv j t ht]
      congr 2
      simp [List.mem_cons, hji]
    | some ti =>
      cases happ : m.clue_applies clue ti.position with
      | true =>
        rw [mark_step_applies hti happ]
        obtain ⟨ihs, ihv⟩ := ih m
        refine ⟨ihs, ?_⟩
        intro j t ht
        rw [ihv j t ht]
        by_cases hji : j = i
        · subst hji
          have hteq : t = ti := Option.some.inj (ht.symm.trans hti)
          subst hteq
          congr 2
          simp [happ]
        · congr 2
          simp [List.mem_cons, hji]
      | false =>
        rw [mark_step_not hti happ]
        obtain ⟨ihs, ihv⟩ := ih (m.setTileSmall i true)
        have hstep : StaticEq m (m.setTileSmall i true) := StaticEq.setTileSmall m i true
        refine ⟨StaticEq_trans hstep ihs, ?_⟩
        intro j t ht
        have happc : ∀ pos, (m.setTileSmall i true).clue_applies clue pos =
            m.clue_applies clue pos :=
          fun pos => Map.clue_applies_congr (StaticEq_symm hstep) clue pos
        by_cases hji : j = i
        · subst hji
          have hteq : t = ti := Option.some.inj (ht.symm.trans hti)
          subst hteq
          have ht1 : (m.setTileSmall j true).tiles[j]? =
              some ({ t with small := true } : Tile) := by
            rw [Map.tiles_setTileSmall, getElem?_listModify, if_pos rfl, ht]
            rfl
          rw [ihv j _ ht1]
          congr 2
          simp [happ]
        · have ht1 : (m.setTileSmall i true).tiles[j]? = some t := by
            rw [Map.tiles_setTileSmall, getElem?_listModify, if_neg hji, ht]
          rw [ihv j t ht1]
          congr 2
          rw [happc]
          simp [List.mem_cons, hji]

theorem mark_small_where_at (m : Map) (clue : Clue) :
    StaticEq m (m.mark_small_where clue) ∧
    ∀ (j : Nat) (t : Tile), m.tiles[j]? = some t →
      (m.mark_small_where clue).tiles[j]? =
        some ({ t with small := t.small || !(m.clue_applies clue t.position) } : Tile) := by
  obtain ⟨hs, hv⟩ := mark_where_fold clue (List.range m.tiles.length) m
  refine ⟨hs, ?_⟩
  intro j t ht
  unfold Map.mark_small_where
  rw [hv j t ht]
  have hj : j < m.tiles.length := by
    rcases List.getElem?_eq_some_iff.mp ht with ⟨hh, _⟩
    exact hh
  congr 2
  simp [List.mem_range, hj]

theorem mark_small_where_val (m : Map) (clue : Clue) :
    ∀ (j : Nat) (t : Tile), m.tiles[j]? = some t →
      ∃ t', (m.mark_small_where clue).tiles[j]? = some t' ∧
        TileVal t t' (t.small || !(m.clue_applies clue t.position)) := by
  intro j t ht
  rw [(mark_small_where_at m clue).2 j t ht]
  exact ⟨_, rfl, ⟨rfl, rfl, rfl, rfl⟩, rfl, rfl⟩

theorem mark_where_list (cs : List Clue) (m : Map) :
    StaticEq m (cs.foldl (fun mm c => mm.mark_small_where c) m) ∧
    ∀ (j : Nat) (t : Tile), m.tiles[j]? = some t →
      ∃ t', (cs.foldl (fun mm c => mm.mark_small_where c) m).tiles[j]? = some t' ∧
        TileVal t t' (t.small || cs.any (fun c => !(m.clue_applies c t.position))) := by
  induction cs generalizing m with
  | nil =>
    refine ⟨StaticEq_refl m, ?_⟩
    intro j t ht
    exact ⟨t, ht, TileStatic_refl t, rfl, by simp⟩
  | cons c cs ih =>
    simp only [List.foldl_cons]
    obtain ⟨hs1, _⟩ := mark_small_where_at m c
    obtain ⟨ihs, ihv⟩ := ih (m.mark_small_where c)
    refine ⟨StaticEq_trans hs1 ihs, ?_⟩
    intro j t ht
    obtain ⟨t1, hget1, hstat1, hans1, hsmall1⟩ := mark_small_where_val m c j t ht
    obtain ⟨t', hget', ⟨hstat', hans', hsmall'⟩⟩ := ihv j t1 hget1
    refine ⟨t', hget', TileStatic_trans hstat1 hstat', hans'.trans hans1, ?_⟩
    rw [hsmall', hsmall1]
    have hposf : (fun c' => !((m.mark_small_where c).clue_applies c' t1.position)) =
        fun c' => !(m.clue_applies c' t.position) := by
      funext c'
      rw [Map.clue_applies_congr (StaticEq_symm hs1), hstat1.1]
    rw [hposf, List.any_cons, Bool.or_assoc]

theorem deduced_inner_fold (deduced : List (PlayerID × List Clue)) (pos : Hex) (i : Nat)
    (pls : List Player) (m : Map) :
    StaticEq m (pls.foldl (deduced_inner_step deduced pos i) m) ∧
    (∀ (j : Nat), j ≠ i →
      (pls.foldl (deduced_inner_step deduced pos i) m).tiles[j]? = m.tiles[j]?) ∧
    ∀ (t : Tile), m.tiles[i]? = some t →
      ∃ t', (pls.foldl (deduced_inner_step deduced pos i) m).tiles[i]? = some t' ∧
        TileVal t t' (t.small || pls.any (fun pl =>
          !(((plookup pl.id deduced).getD []).any (fun c => m.clue_applies c pos)))) := by
  induction pls generalizing m with
  | nil =>
    refine ⟨StaticEq_refl m, fun j _ => rfl, ?_⟩
    intro t ht
    exact ⟨t, ht, TileStatic_refl t, rfl, by simp⟩
  | cons pl pls ih =>
    simp only [List.foldl_cons]
    cases hcond : ((plookup pl.id deduced).getD []).any (fun c => m.clue_applies c pos) with
    | true =>
      have hstep : deduced_inner_step deduced pos i m pl = m := by
        unfold deduced_inner_step
        rw [hcond]
        simp
      rw [hstep]
      obtain ⟨ihs, ihu, ihv⟩ := ih m
      refine ⟨ihs, ihu, ?_⟩
      intro t ht
      obtain ⟨t', hget', hval⟩ := ihv t ht
      refine ⟨t', hget', hval.1, hval.2.1, ?_⟩
      rw [hval.2.2, List.any_cons, hcond]
      simp
    | false =>
      have hstep : deduced_inner_step deduced pos i m pl = m.setTileSmall i true := by
        unfold deduced_inner_step
        rw [hcond]
        simp
      rw [hstep]
      have hstat : StaticEq m (m.setTileSmall i true) := StaticEq.setTileSmall m i true
      obtain ⟨ihs, ihu, ihv⟩ := ih (m.setTileSmall i true)
      have happc : ∀ c pos', (m.setTileSmall i true).clue_applies c pos' =
          m.clue_applies c pos' :=
        fun c pos' => Map.clue_applies_congr (StaticEq_symm hstat) c pos'
      refine ⟨StaticEq_trans hstat ihs, ?_, ?_⟩
      · intro j hji
        rw [ihu j hji, Map.tiles_setTileSmall, getElem?_listModify, if_neg hji]
      · intro t ht
        have ht1 : (m.setTileSmall i true).tiles[i]? =
            some ({ t with small := true } : Tile) := by
          rw [Map.tiles_setTileSmall, getElem?_listModify, if_pos rfl, ht]
          rfl
        obtain ⟨t', hget', hval⟩ := ihv _ ht1
        refine ⟨t', hget', ⟨hval.1.1, hval.1.2.1, hval.1.2.2.1, hval.1.2.2.2⟩,
          hval.2.1, ?_⟩
        rw [hval.2.2, List.any_cons, hcond]
        have hanyc : pls.any (fun pl' =>
            !(((plookup pl'.id deduced).getD []).any (fun c =>
              (m.setTileSmall i true).clue_applies c pos))) =
            pls.any (fun pl' =>
            !(((plookup pl'.id deduced).getD []).any (fun c => m.clue_applies c pos))) := by
          apply list_any_congr
          intro x _
          congr 1
          apply list_any_congr
          intro c _
          rw [happc]
        rw [hanyc]
        simp

theorem deduced_step_none {players : List Player} {deduced : List (PlayerID × List Clue)}
    {m : Map} {i : Nat} (hti : m.tiles[i]? = none) :
    deduced_step players deduced m i = m := by
  unfold deduced_step
  rw [hti]

theorem deduced_step_some {players : List Player} {deduced : List (PlayerID × List Clue)}
    {m : Map} {i : Nat} {t : Tile} (hti : m.tiles[i]? = some t) :
    deduced_step players deduced m i =
      players.foldl (deduced_inner_step deduced t.position i) m := by
  unfold deduced_step
  rw [hti]

theorem deduced_fold (players : List Player) (deduced : List (PlayerID × List Clue))
    (is : List Nat) (m : Map) :
    StaticEq m (is.foldl (deduced_step players deduced) m) ∧
    ∀ (j : Nat) (t : Tile), m.tiles[j]? = some t →
      ∃ t', (is.foldl (deduced_step players deduced) m).tiles[j]? = some t' ∧
        TileVal t t' (t.small || (decide (j ∈ is) && players.any (fun pl =>
          !(((plookup pl.id deduced).getD []).any (fun c =>
            m.clue_applies c t.position))))) := by
  induction is generalizing m with
  | nil =>
    refine ⟨StaticEq_refl m, ?_⟩
    intro j t ht
    exact ⟨t, ht, TileStatic_refl t, rfl, by simp⟩
  | cons i rest ih =>
    simp only [List.foldl_cons]
    cases hti : m.tiles[i]? with
    | none =>
      rw [deduced_step_none hti]
      obtain ⟨ihs, ihv⟩ := ih m
      refine ⟨ihs, ?_⟩
      intro j t ht
      have hji : j ≠ i := by
        intro hh
        rw [hh, hti] at ht
        cases ht
      obtain ⟨t', hget', hval⟩ := ihv j t ht
      refine ⟨t', hget', hval.1, hval.2.1, ?_⟩
      rw [hval.2.2]
      congr 2
      simp [List.mem_cons, hji]
    | some ti =>
      rw [deduced_step_some hti]
      obtain ⟨hs1, hu1, hv1⟩ := deduced_inner_fold deduced ti.position i players m
      set m1 := players.foldl (deduced_inner_step deduced ti.position i) m with hm1
      obtain ⟨ihs, ihv⟩ := ih m1
      have happc : ∀ c pos', m1.clue_applies c pos' = m.clue_applies c pos' :=
        fun c pos' => Map.clue_applies_congr (StaticEq_symm hs1) c pos'
      refine ⟨StaticEq_trans hs1 ihs, ?_⟩
      intro j t ht
      by_cases hji : j = i
      · subst hji
        have hteq : t = ti := Option.some.inj (ht.symm.trans hti)
        subst hteq
        obtain ⟨t1, hget1, hval1⟩ := hv1 t ht
        obtain ⟨t', hget', hval'⟩ := ihv j t1 hget1
        refine ⟨t', hget', TileStatic_trans hval1.1 hval'.1, hval'.2.1.trans hval1.2.1, ?_⟩
        rw [hval'.2.2, hval1.2.2]
        have hanyc : players.any (fun pl =>
            !(((plookup pl.id deduced).getD []).any (fun c =>
              m1.clue_applies c t1.position))) =
            players.any (fun pl =>
            !(((plookup pl.id deduced).getD []).any (fun c =>
              m.clue_applies c t.position))) := by
          apply list_any_congr
          intro x _
          congr 1
          apply list_any_congr
          intro c _
          rw [happc, ← hval1.1.1]
        rw [hanyc]
        have hjmem : decide (j ∈ j :: rest) = true := by simp
        rw [hjmem]
        cases t.small <;> cases players.any (fun pl =>
            !(((plookup pl.id deduced).getD []).any (fun c =>
              m.clue_applies c t.position))) <;>
          cases (decide (j ∈ rest)) <;> rfl
      · obtain ⟨t', hget', hval'⟩ := ihv j t (by rw [hu1 j hji]; exact ht)
        refine ⟨t', hget', hval'.1, hval'.2.1, ?_⟩
        rw [hval'.2.2]
        have hanyc : players.any (fun pl =>
            !(((plookup pl.id deduced).getD []).any (fun c =>
              m1.clue_applies c t.position))) =
            players.any (fun pl =>
            !(((plookup pl.id deduced).getD []).any (fun c =>
              m.clue_applies c t.position))) := by
          apply list_any_congr
          intro x _
          congr 1
          apply list_any_congr
          intro c _
          rw [happc]
        rw [hanyc]
        congr 2
        simp [List.mem_cons, hji]

theorem mark_small_deduced_val (m : Map) (players : List Player)
    (deduced : List (PlayerID × List Clue)) :
    StaticEq m (m.mark_small_deduced players deduced) ∧
    ∀ (j : Nat) (t : Tile), m.tiles[j]? = some t →
      ∃ t', (m.mark_small_deduced players deduced).tiles[j]? = some t' ∧
        TileVal t t' (t.small || players.any (fun pl =>
          !(((plookup pl.id deduced).getD []).any (fun c =>
            m.clue_applies c t.position)))) := by
  obtain ⟨hs, hv⟩ := deduced_fold players deduced (List.range m.tiles.length) m
  refine ⟨hs, ?_⟩
  intro j t ht
  obtain ⟨t', hget', hval⟩ := hv j t ht
  refine ⟨t', hget', hval.1, hval.2.1, ?_⟩
  rw [hval.2.2]
  have hj : j < m.tiles.length := by
    rcases List.getElem?_eq_some_iff.mp ht with ⟨hh, _⟩
    exact hh
  congr 2
  simp [List.mem_range, hj]

theorem forall₂_map_self {α : Type} {R : α → α → Prop} {f : α → α}
    (hf : ∀ x, R x (f x)) (l : List α) : List.Forall₂ R l (l.map f) := by
  induction l with
  | nil => exact List.Forall₂.nil
  | cons x xs ih => exact List.Forall₂.cons (hf x) ih

theorem forall_mem_filterMap {α β : Type} {f : α → Option β} {l : List α} {P : β → Prop} :
    (∀ b ∈ l.filterMap f, P b) ↔ ∀ a ∈ l, ∀ b, f a = some b → P b := by
  constructor
  · intro h a ha b hb
    exact h b (List.mem_filterMap.mpr ⟨a, ha, hb⟩)
  · intro h b hb
    obtain ⟨a, ha, hfa⟩ := List.mem_filterMap.mp hb
    exact h a ha b hfa

/-- C2: after `update_map_from_clues`, a tile is possible (`small = false`)
iff every known-clue player's declared clue applies at it and, for every
player, at least one clue of that player's deduced candidate set applies at
it; the flags are recomputed from scratch (the right-hand side does not
mention the previous flags) and all other tile data is unchanged. -/
theorem C2_update_map_spec (s : TryingClues)
    (_hK : ∀ p ∈ s.players, (plookup p.id s.known_clues).getD false = true →
      (plookup p.id s.clues).isSome = true) :
    ∀ (j : Nat) (t : Tile), s.map.tiles[j]? = some t →
      ∃ t', (s.update_map_from_clues).map.tiles[j]? = some t' ∧ TileStatic t t' ∧
        t'.answers = t.answers ∧
        (t'.small = false ↔
          ((∀ p ∈ s.players, (plookup p.id s.known_clues).getD false = true →
            ∀ c, plookup p.id s.clues = some c →
              s.map.clue_applies c t.position = true) ∧
          (∀ p ∈ s.players, ∃ c ∈ (plookup p.id s.deduced_clues).getD [],
            s.map.clue_applies c t.position = true))) := by
  intro j t ht
  have hmap : (s.update_map_from_clues).map =
      (s.known_clue_list.foldl (fun m clue => m.mark_small_where clue)
        (⟨s.map.tiles.map (fun t => { t with small := false })⟩ : Map)).mark_small_deduced
        s.players s.deduced_clues := rfl
  set m0 : Map := ⟨s.map.tiles.map (fun t => { t with small := false })⟩ with hm0
  have hstat0 : StaticEq s.map m0 :=
    forall₂_map_self (fun x => ⟨rfl, rfl, rfl, rfl⟩) s.map.tiles
  have ht0 : m0.tiles[j]? = some ({ t with small := false } : Tile) := by
    show (s.map.tiles.map (fun t => { t with small := false }))[j]? = _
    rw [List.getElem?_map, ht]
    rfl
  obtain ⟨hs1, hv1⟩ := mark_where_list s.known_clue_list m0
  obtain ⟨t1, hget1, hval1⟩ := hv1 j _ ht0
  set m1 := s.known_clue_list.foldl (fun m clue => m.mark_small_where clue) m0 with hm1
  obtain ⟨hs2, hv2⟩ := mark_small_deduced_val m1 s.players s.deduced_clues
  obtain ⟨t2, hget2, hval2⟩ := hv2 j t1 hget1
  have hstat01 : TileStatic t ({ t with small := false } : Tile) := ⟨rfl, rfl, rfl, rfl⟩
  have hpos1 : t1.position = t.position := (TileStatic_trans hstat01 hval1.1).1.symm
  refine ⟨t2, ?_, TileStatic_trans (TileStatic_trans hstat01 hval1.1) hval2.1,
    (hval2.2.1.trans hval1.2.1 : t2.answers = _), ?_⟩
  · rw [hmap]
    exact hget2
  · have hA : s.known_clue_list.any (fun c =>
        !(m0.clue_applies c ({ t with small := false } : Tile).position)) =
        s.known_clue_list.any (fun c => !(s.map.clue_applies c t.position)) := by
      apply list_any_congr
      intro c _
      rw [Map.clue_applies_congr (StaticEq_symm hstat0)]
    have hB : s.players.any (fun pl =>
        !(((plookup pl.id s.deduced_clues).getD []).any (fun c =>
          m1.clue_applies c t1.position))) =
        s.players.any (fun pl =>
        !(((plookup pl.id s.deduced_clues).getD []).any (fun c =>
          s.map.clue_applies c t.position))) := by
      apply list_any_congr
      intro pl _
      congr 1
      apply list_any_congr
      intro c _
      rw [Map.clue_applies_congr (StaticEq_symm (StaticEq_trans hstat0 hs1)), hpos1]
    have hsm : t2.small = (s.known_clue_list.any (fun c =>
        !(s.map.clue_applies c t.position)) || s.players.any (fun pl =>
        !(((plookup pl.id s.deduced_clues).getD []).any (fun c =>
          s.map.clue_applies c t.position)))) := by
      rw [hval2.2.2, hval1.2.2, hA, hB]
      rfl
    rw [hsm, Bool.or_eq_false_iff]
    apply and_congr
    · rw [List.any_eq_false]
      have hstep1 : (∀ c ∈ s.known_clue_list,
          ¬(!(s.map.clue_applies c t.position)) = true) ↔
          ∀ c ∈ s.known_clue_list, s.map.clue_applies c t.position = true := by
        apply forall_congr'
        intro c
        apply imp_congr_right
        intro _
        simp
      rw [hstep1]
      unfold TryingClues.known_clue_list
      rw [forall_mem_filterMap]
      apply forall_congr'
      intro p
      apply imp_congr_right
      intro _
      by_cases hf : (plookup p.id s.known_clues).getD false = true
      · rw [if_pos hf]
        constructor
        · intro h _
          exact h
        · intro h c hc
          exact h hf c hc
      · rw [if_neg hf]
        constructor
        · intro _ hcontra
          exact absurd hcontra hf
        · intro _ c hc
          cases hc
    · rw [List.any_eq_false]
      apply forall_congr'
      intro pl
      apply imp_congr_right
      intro _
      rw [Bool.not_eq_true, Bool.not_eq_false', List.any_eq_true]

/-- C2 witness: the characterization applied to the example state at tile
index 0. -/
theorem C2_update_map_spec_witness :
    ∃ t', (exState.update_map_from_clues).map.tiles[0]? = some t' ∧
      TileStatic exTileCenter t' ∧ t'.answers = exTileCenter.answers ∧
      (t'.small = false ↔
        ((∀ p ∈ exState.players,
          (plookup p.id exState.known_clues).getD false = true →
          ∀ c, plookup p.id exState.clues = some c →
            exState.map.clue_applies c exTileCenter.position = true) ∧
        (∀ p ∈ exState.players,
          ∃ c ∈ (plookup p.id exState.deduced_clues).getD [],
            exState.map.clue_applies c exTileCenter.position = true))) :=
  C2_update_map_spec exState (by decide) 0 exTileCenter (by decide)

theorem min_set_by_key_eq_nil_iff {α : Type} (f : α → Nat) (l : List α) :
    min_set_by_key f l = [] ↔ l = [] := by
  unfold min_set_by_key
  split
  · rename_i hm
    rw [List.min?_eq_none_iff, List.map_eq_nil_iff] at hm
    simp [hm]
  · rename_i k hm
    have hk : k ∈ l.map f := List.min?_mem (fun a b => min_choice a b) hm
    obtain ⟨a, ha, hfa⟩ := List.mem_map.mp hk
    constructor
    · intro hfil
      have hmem : a ∈ l.filter (fun x => f x = k) :=
        List.mem_filter.mpr ⟨ha, by simp [hfa]⟩
      rw [hfil] at hmem
      cases hmem
    · intro hl
      subst hl
      cases ha

theorem mem_min_set_by_key {α : Type} {f : α → Nat} {l : List α} {x : α} :
    x ∈ min_set_by_key f l ↔ x ∈ l ∧ ∀ y ∈ l, f x ≤ f y := by
  unfold min_set_by_key
  split
  · rename_i hm
    rw [List.min?_eq_none_iff, List.map_eq_nil_iff] at hm
    subst hm
    simp
  · rename_i k hm
    have hk_le : ∀ b ∈ l.map f, k ≤ b := by
      intro b hb
      exact (List.le_min?_iff (fun _ _ _ => le_min_iff) hm).mp (le_refl k) b hb
    have hk : k ∈ l.map f := List.min?_mem (fun a b => min_choice a b) hm
    rw [List.mem_filter]
    constructor
    · rintro ⟨hx, hfx⟩
      have hfxk : f x = k := by simpa using hfx
      refine ⟨hx, fun y hy => ?_⟩
      rw [hfxk]
      exact hk_le (f y) (List.mem_map_of_mem f hy)
    · rintro ⟨hx, hmin⟩
      refine ⟨hx, ?_⟩
      obtain ⟨a, ha, hfa⟩ := List.mem_map.mp hk
      have h1 : f x ≤ k := by
        rw [← hfa]
        exact hmin a ha
      have h2 : k ≤ f x := hk_le (f x) (List.mem_map_of_mem f hx)
      simp [le_antisymm h1 h2]

theorem TileEvolG_refl (t : Tile) : TileEvolG t t :=
  ⟨TileStatic_refl t, rfl, fun _ => Or.inl rfl⟩

theorem TileEvolG_trans {a b c : Tile} (h1 : TileEvolG a b) (h2 : TileEvolG b c) :
    TileEvolG a c := by
  refine ⟨TileStatic_trans h1.1 h2.1, h2.2.1.trans h1.2.1, ?_⟩
  intro q
  rcases h2.2.2 q with h2q | ⟨h2n, h2u⟩
  · rcases h1.2.2 q with h1q | ⟨h1n, h1u⟩
    · exact Or.inl (h2q.trans h1q)
    · exact Or.inr ⟨h1n, h2q.trans h1u⟩
  · rcases h1.2.2 q with h1q | ⟨h1n, h1u⟩
    · exact Or.inr ⟨h1q.symm.trans h2n, h2u⟩
    · exact absurd (h1u.symm.trans h2n) (by simp)

theorem AnsEvol_refl (m : Map) : AnsEvol m m :=
  List.forall₂_same.mpr (fun t _ => TileEvolG_refl t)

theorem AnsEvol_trans {a b c : Map} (h1 : AnsEvol a b) (h2 : AnsEvol b c) :
    AnsEvol a c :=
  forall₂_trans (fun a b c u v => @TileEvolG_trans a b c u v) h1 h2

theorem TileEvolG.effA_eq {t t' : Tile} (h : TileEvolG t t') (q : PlayerID) :
    effA q t = effA q t' := by
  rcases h.2.2 q with hq | ⟨hn, hu⟩
  · unfold effA
    rw [hq]
  · unfold effA
    rw [hn, hu]
    rfl

theorem AnsEvol_staticEq {m m' : Map} (h : AnsEvol m m') : StaticEq m m' :=
  List.Forall₂.imp (fun _ _ hR => hR.1) h

theorem AnsEvol.effEq {m m' : Map} (h : AnsEvol m m') (p : PlayerID) : EffEq p m m' :=
  List.Forall₂.imp (fun _ _ hR => ⟨hR.1, hR.effA_eq p⟩) h

theorem forall₂_getElem? {α β : Type} {R : α → β → Prop} {l : List α} {l' : List β}
    (h : List.Forall₂ R l l') (i : Nat) {x : α} (hx : l[i]? = some x) :
    ∃ y, l'[i]? = some y ∧ R x y := by
  induction h generalizing i with
  | nil => cases hx
  | cons hR hF ih =>
    cases i with
    | zero =>
      simp only [List.getElem?_cons_zero, Option.some.injEq] at hx
      subst hx
      exact ⟨_, by simp, hR⟩
    | succ n =>
      simp only [List.getElem?_cons_succ] at hx
      obtain ⟨y, hy, hRy⟩ := ih n hx
      exact ⟨y, by simpa using hy, hRy⟩

theorem forall₂_listModify_both {α : Type} {R : α → α → Prop} {l l' : List α}
    (h : List.Forall₂ R l l') {f g : α → α} (hfg : ∀ x y, R x y → R (f x) (g y))
    (i : Nat) : List.Forall₂ R (listModify f i l) (listModify g i l') := by
  induction h generalizing i with
  | nil =>
    have h1 : listModify f i ([] : List α) = [] := by simp [listModify]
    have h2 : listModify g i ([] : List α) = [] := by simp [listModify]
    rw [h1, h2]
    exact List.Forall₂.nil
  | cons hR hF ih =>
    cases i with
    | zero => exact List.Forall₂.cons (hfg _ _ hR) hF
    | succ n => exact List.Forall₂.cons hR (ih n)

theorem forall₂_listModify_at {α : Type} {R : α → α → Prop} (hrefl : ∀ x, R x x)
    {f : α → α} (i : Nat) (l : List α) (hf : ∀ x, l[i]? = some x → R x (f x)) :
    List.Forall₂ R l (listModify f i l) := by
  induction l generalizing i with
  | nil =>
    have h1 : listModify f i ([] : List α) = [] := by simp [listModify]
    rw [h1]
    exact List.Forall₂.nil
  | cons x xs ih =>
    cases i with
    | zero =>
      exact List.Forall₂.cons (hf x (by simp)) (List.forall₂_same.mpr (fun y _ => hrefl y))
    | succ n =>
      refine List.Forall₂.cons (hrefl x) (ih n ?_)
      intro y hy
      exact hf y (by simpa using hy)

theorem listModify_listModify {α : Type} (f g : α → α) (i : Nat) (l : List α) :
    listModify f i (listModify g i l) = listModify (fun x => f (g x)) i l := by
  induction l generalizing i with
  | nil => simp [listModify]
  | cons x xs ih =>
    cases i with
    | zero => rfl
    | succ n =>
      show x :: listModify f n (listModify g n xs) = x :: listModify _ n xs
      rw [ih n]

theorem listModify_id_at {α : Type} {f : α → α} {i : Nat} {l : List α} {x : α}
    (hx : l[i]? = some x) (hfx : f x = x) : listModify f i l = l := by
  induction l generalizing i with
  | nil => cases hx
  | cons y ys ih =>
    cases i with
    | zero =>
      simp only [List.getElem?_cons_zero, Option.some.injEq] at hx
      subst hx
      show f y :: ys = y :: ys
      rw [hfx]
    | succ n =>
      simp only [List.getElem?_cons_succ] at hx
      show y :: listModify f n ys = y :: ys
      rw [ih hx]

theorem Map.setAnswerAt_setAnswerAt (m : Map) (i : Nat) (p : PlayerID) (a b : Answer) :
    (m.setAnswerAt i p a).setAnswerAt i p b = m.setAnswerAt i p b := by
  show (⟨listModify _ i (listModify _ i m.tiles)⟩ : Map) = ⟨listModify _ i m.tiles⟩
  rw [listModify_listModify]
  congr 1
  apply congrArg (fun f => listModify f i m.tiles)
  funext t
  show ({ { t with answers := ainsert p a t.answers } with
    answers := ainsert p b (ainsert p a t.answers) } : Tile) = _
  rw [ainsert_ainsert]

theorem Map.setAnswerAt_self {m : Map} {i : Nat} {p : PlayerID} {a : Answer} {t0 : Tile}
    (ht0 : m.tiles[i]? = some t0) (hl : alookup p t0.answers = some a) :
    m.setAnswerAt i p a = m := by
  show (⟨listModify _ i m.tiles⟩ : Map) = m
  rw [listModify_id_at ht0]
  · show ({ t0 with answers := ainsert p a t0.answers } : Tile) = t0
    rw [ainsert_of_alookup_eq hl]

theorem EffEq_symm {p : PlayerID} {m m' : Map} (h : EffEq p m m') : EffEq p m' m :=
  (List.Forall₂.imp (fun _ _ hr => ⟨TileStatic_symm hr.1, hr.2.symm⟩) h).flip

theorem effEq_setAnswerAt {p : PlayerID} {m m1 : Map} (h : EffEq p m m1) (i : Nat)
    (a : Answer) : EffEq p (m.setAnswerAt i p a) (m1.setAnswerAt i p a) := by
  show List.Forall₂ (TileEff p) (listModify _ i m.tiles) (listModify _ i m1.tiles)
  apply forall₂_listModify_both h
  intro x y hxy
  refine ⟨⟨hxy.1.1, hxy.1.2.1, hxy.1.2.2.1, hxy.1.2.2.2⟩, ?_⟩
  show (alookup p (ainsert p a x.answers)).getD .Unknown =
    (alookup p (ainsert p a y.answers)).getD .Unknown
  rw [alookup_ainsert_self, alookup_ainsert_self]

theorem AnsEvol.length_eq {m m' : Map} (h : AnsEvol m m') :
    m.tiles.length = m'.tiles.length :=
  List.Forall₂.length_eq h

theorem AnsEvol.getElem?_none_iff {m m' : Map} (h : AnsEvol m m') (i : Nat) :
    m.tiles[i]? = none ↔ m'.tiles[i]? = none := by
  rw [List.getElem?_eq_none_iff, List.getElem?_eq_none_iff, h.length_eq]

theorem eligible_congr {m m' : Map} (h : AnsEvol m m') (p : PlayerID) (i : Nat) :
    eligible m' p i = eligible m p i := by
  unfold eligible
  cases ht : m.tiles[i]? with
  | none =>
    rw [(h.getElem?_none_iff i).mp ht]
  | some t =>
    obtain ⟨t', ht', hR⟩ := forall₂_getElem? h i ht
    rw [ht']
    show (effA p t' == Answer.Unknown) = (effA p t == Answer.Unknown)
    rw [hR.effA_eq p]

theorem posAt_congr {m m' : Map} (h : AnsEvol m m') (i : Nat) :
    posAt m' i = posAt m i := by
  unfold posAt
  cases ht : m.tiles[i]? with
  | none => rw [(h.getElem?_none_iff i).mp ht]
  | some t =>
    obtain ⟨t', ht', hR⟩ := forall₂_getElem? h i ht
    rw [ht']
    show t'.position = t.position
    rw [hR.1.1]

theorem sim_len_congr {m m' : Map} (h : AnsEvol m m') (p : PlayerID) (wi : Bool)
    (a : Answer) (i : Nat) : sim_len m' p wi a i = sim_len m p wi a i := by
  unfold sim_len
  rw [Map.clues_for_player_congr (effEq_setAnswerAt (EffEq_symm (h.effEq p)) i a) wi]

theorem question_at_congr {m m' : Map} (h : AnsEvol m m') (p : PlayerID) (wi : Bool)
    (L : Nat) (i : Nat) : question_at m' p wi L i = question_at m p wi L i := by
  unfold question_at
  rw [posAt_congr h, sim_len_congr h, sim_len_congr h]

theorem no_at_congr {m m' : Map} (h : AnsEvol m m') (p : PlayerID) (wi : Bool)
    (L : Nat) (i : Nat) : no_at m' p wi L i = no_at m p wi L i := by
  unfold no_at
  rw [posAt_congr h, sim_len_congr h]

theorem clues_for_player_congr_ansEvol {m m' : Map} (h : AnsEvol m m') (p : PlayerID)
    (wi : Bool) : m'.clues_for_player p wi = m.clues_for_player p wi :=
  Map.clues_for_player_congr (EffEq_symm (h.effEq p)) wi

theorem spec_list_congr {m m' : Map} (h : AnsEvol m m') (p : PlayerID) (wi : Bool)
    (L : Nat) (is : List Nat) :
    (is.filter (fun i => eligible m' p i)).map (question_at m' p wi L) =
      (is.filter (fun i => eligible m p i)).map (question_at m p wi L) := by
  rw [List.filter_congr (fun i _ => eligible_congr h p i)]
  apply List.map_congr_left
  intro i _
  exact question_at_congr h p wi L i

theorem no_list_congr {m m' : Map} (h : AnsEvol m m') (p : PlayerID) (wi : Bool)
    (L : Nat) (is : List Nat) :
    (is.filter (fun i => eligible m' p i)).map (no_at m' p wi L) =
      (is.filter (fun i => eligible m p i)).map (no_at m p wi L) := by
  rw [List.filter_congr (fun i _ => eligible_congr h p i)]
  apply List.map_congr_left
  intro i _
  exact no_at_congr h p wi L i

theorem entryOrDefaultAt_cases (m : Map) (i : Nat) (p : PlayerID) {t0 : Tile}
    (ht0 : m.tiles[i]? = some t0) :
    (m.entryOrDefaultAt i p).1 = effA p t0 ∧
    (((alookup p t0.answers).isSome = true ∧ (m.entryOrDefaultAt i p).2 = m) ∨
     (alookup p t0.answers = none ∧
       (m.entryOrDefaultAt i p).2 = m.setAnswerAt i p .Unknown)) := by
  simp only [Map.entryOrDefaultAt, ht0]
  cases hl : alookup p t0.answers with
  | some a =>
    refine ⟨?_, Or.inl ⟨rfl, rfl⟩⟩
    show a = effA p t0
    unfold effA
    rw [hl]
    rfl
  | none =>
    refine ⟨?_, Or.inr ⟨rfl, rfl⟩⟩
    show Answer.Unknown = effA p t0
    unfold effA
    rw [hl]
    rfl

theorem ansEvol_insert_unknown {m : Map} {i : Nat} {p : PlayerID} {t0 : Tile}
    (ht0 : m.tiles[i]? = some t0) (hl : alookup p t0.answers = none) :
    AnsEvol m (m.setAnswerAt i p .Unknown) := by
  show List.Forall₂ TileEvolG m.tiles (listModify _ i m.tiles)
  apply forall₂_listModify_at TileEvolG_refl
  intro x hx
  have hx0 : x = t0 := Option.some.inj (hx.symm.trans ht0)
  subst hx0
  refine ⟨⟨rfl, rfl, rfl, rfl⟩, rfl, ?_⟩
  intro q
  by_cases hq : q = p
  · subst hq
    exact Or.inr ⟨hl, alookup_ainsert_self q .Unknown x.answers⟩
  · exact Or.inl (alookup_ainsert_other hq .Unknown x.answers)

theorem ansEvol_entry (m : Map) (i : Nat) (p : PlayerID) {t0 : Tile}
    (ht0 : m.tiles[i]? = some t0) : AnsEvol m (m.entryOrDefaultAt i p).2 := by
  rcases (entryOrDefaultAt_cases m i p ht0).2 with ⟨_, he⟩ | ⟨hn, he⟩
  · rw [he]
    exact AnsEvol_refl m
  · rw [he]
    exact ansEvol_insert_unknown ht0 hn

theorem ansEvol_isSome {m m' : Map} (h : AnsEvol m m') {i : Nat} {t : Tile}
    (ht : m.tiles[i]? = some t) {q : PlayerID} (hq : (alookup q t.answers).isSome = true) :
    ∃ t', m'.tiles[i]? = some t' ∧ (alookup q t'.answers).isSome = true := by
  obtain ⟨t', ht', hR⟩ := forall₂_getElem? h i ht
  refine ⟨t', ht', ?_⟩
  rcases hR.2.2 q with hqq | ⟨hn, hu⟩
  · rw [hqq]
    exact hq
  · rw [hu]
    rfl

theorem eligible_true_of {m : Map} {i : Nat} {p : PlayerID} {t0 : Tile}
    (ht0 : m.tiles[i]? = some t0) (heff : effA p t0 = .Unknown) :
    eligible m p i = true := by
  unfold eligible
  rw [ht0]
  show (effA p t0 == Answer.Unknown) = true
  rw [heff]
  rfl

theorem eligible_false_of {m : Map} {i : Nat} {p : PlayerID} {t0 : Tile}
    (ht0 : m.tiles[i]? = some t0) (heff : ¬ effA p t0 = .Unknown) :
    eligible m p i = false := by
  unfold eligible
  rw [ht0]
  show (effA p t0 == Answer.Unknown) = false
  simpa using heff

theorem question_scan_cons_skip {wi : Bool} {p : PlayerID} {L : Nat} {m : Map}
    {i : Nat} {rest : List Nat} {t0 : Tile}
    (ht0 : m.tiles[i]? = some t0) (heff : ¬ effA p t0 = .Unknown) :
    question_scan wi p L m (i :: rest) = question_scan wi p L m rest := by
  obtain ⟨h1, h2⟩ := entryOrDefaultAt_cases m i p ht0
  have hm : (m.entryOrDefaultAt i p).2 = m := by
    rcases h2 with ⟨_, he⟩ | ⟨hn, _⟩
    · exact he
    · exfalso
      apply heff
      unfold effA
      rw [hn]
      rfl
  simp only [question_scan, ht0]
  rw [if_pos (by rw [h1]; exact heff), hm]

theorem question_scan_cons_eligible {wi : Bool} {p : PlayerID} {L : Nat} {m : Map}
    {i : Nat} {rest : List Nat} {t0 : Tile}
    (ht0 : m.tiles[i]? = some t0) (heff : effA p t0 = .Unknown) :
    question_scan wi p L m (i :: rest) =
      ((question_scan wi p L ((m.entryOrDefaultAt i p).2.setAnswerAt i p .Unknown) rest).1,
        (⟨t0.position,
          abs_diff L (((m.entryOrDefaultAt i p).2.setAnswerAt i p .No).clues_for_player
            p wi).length,
          abs_diff L (((m.entryOrDefaultAt i p).2.setAnswerAt i p .Yes).clues_for_player
            p wi).length⟩ : Question)
        :: (question_scan wi p L
            ((m.entryOrDefaultAt i p).2.setAnswerAt i p .Unknown) rest).2) := by
  obtain ⟨h1, _⟩ := entryOrDefaultAt_cases m i p ht0
  simp only [question_scan, ht0]
  rw [if_neg (by rw [h1, heff]; simp)]
  simp only [Map.setAnswerAt_setAnswerAt]

theorem question_scan_spec (wi : Bool) (p : PlayerID) (L : Nat) (is : List Nat)
    (m : Map) (his : ∀ i ∈ is, i < m.tiles.length) :
    AnsEvol m (question_scan wi p L m is).1 ∧
    (∀ i ∈ is, ∃ t', (question_scan wi p L m is).1.tiles[i]? = some t' ∧
      (alookup p t'.answers).isSome = true) ∧
    (question_scan wi p L m is).2 =
      (is.filter (fun j => eligible m p j)).map (question_at m p wi L) := by
  induction is generalizing m with
  | nil =>
    exact ⟨AnsEvol_refl m, by simp, rfl⟩
  | cons i rest ih =>
    have hi : i < m.tiles.length := his i (List.mem_cons_self i rest)
    obtain ⟨t0, ht0⟩ : ∃ t0, m.tiles[i]? = some t0 :=
      ⟨m.tiles[i], List.getElem?_eq_getElem hi⟩
    by_cases heff : effA p t0 = .Unknown
    · rw [question_scan_cons_eligible ht0 heff]
      set m1 := (m.entryOrDefaultAt i p).2 with hm1
      set m4 := m1.setAnswerAt i p .Unknown with hm4
      have hAE1 : AnsEvol m m1 := ansEvol_entry m i p ht0
      have hm41 : m4 = m1 := by
        rw [hm4, hm1]
        rcases (entryOrDefaultAt_cases m i p ht0).2 with ⟨hs, he⟩ | ⟨hn, he⟩
        · have hlu : alookup p t0.answers = some .Unknown := by
            cases hl : alookup p t0.answers with
            | none =>
              rw [hl] at hs
              cases hs
            | some a =>
              have ha : a = .Unknown := by
                unfold effA at heff
                rw [hl] at heff
                exact heff
              rw [ha]
          rw [he]
          exact Map.setAnswerAt_self ht0 hlu
        · rw [he, Map.setAnswerAt_setAnswerAt]
      have hAE4 : AnsEvol m m4 := by
        rw [hm41]
        exact hAE1
      have hEff1 : EffEq p m1 m := EffEq_symm (hAE1.effEq p)
      have hno : ((m1.setAnswerAt i p .No).clues_for_player p wi).length =
          sim_len m p wi .No i := by
        unfold sim_len
        rw [Map.clues_for_player_congr (effEq_setAnswerAt hEff1 i .No) wi]
      have hyes : ((m1.setAnswerAt i p .Yes).clues_for_player p wi).length =
          sim_len m p wi .Yes i := by
        unfold sim_len
        rw [Map.clues_for_player_congr (effEq_setAnswerAt hEff1 i .Yes) wi]
      have hpres4 : ∃ t1, m4.tiles[i]? = some t1 ∧
          alookup p t1.answers = some .Unknown := by
        have hi1 : i < m1.tiles.length := by
          rw [← hAE1.length_eq]
          exact hi
        obtain ⟨t1', ht1'⟩ : ∃ x, m1.tiles[i]? = some x :=
          ⟨m1.tiles[i], List.getElem?_eq_getElem hi1⟩
        refine ⟨{ t1' with answers := ainsert p .Unknown t1'.answers }, ?_,
          alookup_ainsert_self p .Unknown t1'.answers⟩
        show (listModify _ i m1.tiles)[i]? = _
        rw [getElem?_listModify, if_pos rfl, ht1']
        rfl
      have hisrest : ∀ j ∈ rest, j < m4.tiles.length := by
        intro j hj
        rw [← hAE4.length_eq]
        exact his j (List.mem_cons_of_mem i hj)
      obtain ⟨ihA, ihP, ihQ⟩ := ih m4 hisrest
      refine ⟨AnsEvol_trans hAE4 ihA, ?_, ?_⟩
      · intro j hj
        rcases List.mem_cons.mp hj with rfl | hjr
        · obtain ⟨t1, ht1, hl1⟩ := hpres4
          exact ansEvol_isSome ihA ht1 (by rw [hl1]; rfl)
        · exact ihP j hjr
      · show (⟨t0.position,
            abs_diff L ((m1.setAnswerAt i p .No).clues_for_player p wi).length,
            abs_diff L ((m1.setAnswerAt i p .Yes).clues_for_player p wi).length⟩ :
              Question) :: (question_scan wi p L m4 rest).2 =
          ((i :: rest).filter (fun j => eligible m p j)).map (question_at m p wi L)
        rw [List.filter_cons_of_pos (eligible_true_of ht0 heff), List.map_cons]
        congr 1
        · unfold question_at
          congr 1
          · unfold posAt
            rw [ht0]
          · rw [hno]
          · rw [hyes]
        · rw [ihQ, spec_list_congr hAE4 p wi L rest]
    · rw [question_scan_cons_skip ht0 heff]
      have hisrest : ∀ j ∈ rest, j < m.tiles.length :=
        fun j hj => his j (List.mem_cons_of_mem i hj)
      obtain ⟨ihA, ihP, ihQ⟩ := ih m hisrest
      refine ⟨ihA, ?_, ?_⟩
      · intro j hj
        rcases List.mem_cons.mp hj with rfl | hjr
        · have hsome : (alookup p t0.answers).isSome = true := by
            cases hl : alookup p t0.answers with
            | none =>
              exfalso
              apply heff
              unfold effA
              rw [hl]
              rfl
            | some a => rfl
          exact ansEvol_isSome ihA ht0 hsome
        · exact ihP j hjr
      · rw [ihQ, List.filter_cons_of_neg]
        rw [eligible_false_of ht0 heff]
        simp

theorem no_scan_cons_skip {wi : Bool} {p : PlayerID} {L : Nat} {m : Map}
    {i : Nat} {rest : List Nat} {t0 : Tile}
    (ht0 : m.tiles[i]? = some t0) (heff : ¬ effA p t0 = .Unknown) :
    no_scan wi p L m (i :: rest) = no_scan wi p L m rest := by
  obtain ⟨h1, h2⟩ := entryOrDefaultAt_cases m i p ht0
  have hm : (m.entryOrDefaultAt i p).2 = m := by
    rcases h2 with ⟨_, he⟩ | ⟨hn, _⟩
    · exact he
    · exfalso
      apply heff
      unfold effA
      rw [hn]
      rfl
  simp only [no_scan, ht0]
  rw [if_pos (by rw [h1]; exact heff), hm]

theorem no_scan_cons_eligible {wi : Bool} {p : PlayerID} {L : Nat} {m : Map}
    {i : Nat} {rest : List Nat} {t0 : Tile}
    (ht0 : m.tiles[i]? = some t0) (heff : effA p t0 = .Unknown) :
    no_scan wi p L m (i :: rest) =
      ((no_scan wi p L ((m.entryOrDefaultAt i p).2.setAnswerAt i p .Unknown) rest).1,
        (⟨abs_diff L (((m.entryOrDefaultAt i p).2.setAnswerAt i p .No).clues_for_player
            p wi).length, t0.position⟩ : No)
        :: (no_scan wi p L
            ((m.entryOrDefaultAt i p).2.setAnswerAt i p .Unknown) rest).2) := by
  obtain ⟨h1, _⟩ := entryOrDefaultAt_cases m i p ht0
  simp only [no_scan, ht0]
  rw [if_neg (by rw [h1, heff]; simp)]
  simp only [Map.setAnswerAt_setAnswerAt]

theorem no_scan_spec (wi : Bool) (p : PlayerID) (L : Nat) (is : List Nat)
    (m : Map) (his : ∀ i ∈ is, i < m.tiles.length) :
    AnsEvol m (no_scan wi p L m is).1 ∧
    (∀ i ∈ is, ∃ t', (no_scan wi p L m is).1.tiles[i]? = some t' ∧
      (alookup p t'.answers).isSome = true) ∧
    (no_scan wi p L m is).2 =
      (is.filter (fun j => eligible m p j)).map (no_at m p wi L) := by
  induction is generalizing m with
  | nil =>
    exact ⟨AnsEvol_refl m, by simp, rfl⟩
  | cons i rest ih =>
    have hi : i < m.tiles.length := his i (List.mem_cons_self i rest)
    obtain ⟨t0, ht0⟩ : ∃ t0, m.tiles[i]? = some t0 :=
      ⟨m.tiles[i], List.getElem?_eq_getElem hi⟩
    by_cases heff : effA p t0 = .Unknown
    · rw [no_scan_cons_eligible ht0 heff]
      set m1 := (m.entryOrDefaultAt i p).2 with hm1
      set m4 := m1.setAnswerAt i p .Unknown with hm4
      have hAE1 : AnsEvol m m1 := ansEvol_entry m i p ht0
      have hm41 : m4 = m1 := by
        rw [hm4, hm1]
        rcases (entryOrDefaultAt_cases m i p ht0).2 with ⟨hs, he⟩ | ⟨hn, he⟩
        · have hlu : alookup p t0.answers = some .Unknown := by
            cases hl : alookup p t0.answers with
            | none =>
              rw [hl] at hs
              cases hs
            | some a =>
              have ha : a = .Unknown := by
                unfold effA at heff
                rw [hl] at heff
                exact heff
              rw [ha]
          rw [he]
          exact Map.setAnswerAt_self ht0 hlu
        · rw [he, Map.setAnswerAt_setAnswerAt]
      have hAE4 : AnsEvol m m4 := by
        rw [hm41]
        exact hAE1
      have hEff1 : EffEq p m1 m := EffEq_symm (hAE1.effEq p)
      have hno : ((m1.setAnswerAt i p .No).clues_for_player p wi).length =
          sim_len m p wi .No i := by
        unfold sim_len
        rw [Map.clues_for_player_congr (effEq_setAnswerAt hEff1 i .No) wi]
      have hpres4 : ∃ t1, m4.tiles[i]? = some t1 ∧
          alookup p t1.answers = some .Unknown := by
        have hi1 : i < m1.tiles.length := by
          rw [← hAE1.length_eq]
          exact hi
        obtain ⟨t1', ht1'⟩ : ∃ x, m1.tiles[i]? = some x :=
          ⟨m1.tiles[i], List.getElem?_eq_getElem hi1⟩
        refine ⟨{ t1' with answers := ainsert p .Unknown t1'.answers }, ?_,
          alookup_ainsert_self p .Unknown t1'.answers⟩
        show (listModify _ i m1.tiles)[i]? = _
        rw [getElem?_listModify, if_pos rfl, ht1']
        rfl
      have hisrest : ∀ j ∈ rest, j < m4.tiles.length := by
        intro j hj
        rw [← hAE4.length_eq]
        exact his j (List.mem_cons_of_mem i hj)
      obtain ⟨ihA, ihP, ihQ⟩ := ih m4 hisrest
      refine ⟨AnsEvol_trans hAE4 ihA, ?_, ?_⟩
      · intro j hj
        rcases List.mem_cons.mp hj with rfl | hjr
        · obtain ⟨t1, ht1, hl1⟩ := hpres4
          exact ansEvol_isSome ihA ht1 (by rw [hl1]; rfl)
        · exact ihP j hjr
      · show (⟨abs_diff L ((m1.setAnswerAt i p .No).clues_for_player p wi).length,
            t0.position⟩ : No) :: (no_scan wi p L m4 rest).2 =
          ((i :: rest).filter (fun j => eligible m p j)).map (no_at m p wi L)
        rw [List.filter_cons_of_pos (eligible_true_of ht0 heff), List.map_cons]
        congr 1
        · unfold no_at
          congr 1
          · rw [hno]
          · unfold posAt
            rw [ht0]
        · rw [ihQ, no_list_congr hAE4 p wi L rest]
    · rw [no_scan_cons_skip ht0 heff]
      have hisrest : ∀ j ∈ rest, j < m.tiles.length :=
        fun j hj => his j (List.mem_cons_of_mem i hj)
      obtain ⟨ihA, ihP, ihQ⟩ := ih m hisrest
      refine ⟨ihA, ?_, ?_⟩
      · intro j hj
        rcases List.mem_cons.mp hj with rfl | hjr
        · have hsome : (alookup p t0.answers).isSome = true := by
            cases hl : alookup p t0.answers with
            | none =>
              exfalso
              apply heff
              unfold effA
              rw [hl]
              rfl
            | some a => rfl
          exact ansEvol_isSome ihA ht0 hsome
        · exact ihP j hjr
      · rw [ihQ, List.filter_cons_of_neg]
        rw [eligible_false_of ht0 heff]
        simp

theorem no_eligible_iff (m : Map) (p : PlayerID) :
    ((List.range m.tiles.length).filter (fun j => eligible m p j) = []) ↔
      ¬ ∃ t ∈ m.tiles, effA p t = .Unknown := by
  rw [List.filter_eq_nil_iff]
  constructor
  · rintro h ⟨t, htm, heff⟩
    obtain ⟨i, hti⟩ := List.mem_iff_getElem?.mp htm
    have hi : i < m.tiles.length := (List.getElem?_eq_some_iff.mp hti).1
    apply h i (List.mem_range.mpr hi)
    rw [eligible_true_of hti heff]
  · intro hne i hir hel
    cases hti : m.tiles[i]? with
    | none =>
      unfold eligible at hel
      rw [hti] at hel
      cases hel
    | some t =>
      apply hne
      refine ⟨t, List.mem_iff_getElem?.mpr ⟨i, hti⟩, ?_⟩
      unfold eligible at hel
      rw [hti] at hel
      have hel' : (effA p t == Answer.Unknown) = true := hel
      simpa using hel'

/-- C7 (amended): the per-opponent question computation returns a hint for
the player iff the player's candidate count is not exactly 1 and at least
one tile has effective answer Unknown for that player. -/
theorem C7_best_question_iff (m : Map) (p : PlayerID) (wi : Bool) :
    ((m.best_question p wi).2).isSome = true ↔
      ((m.clues_for_player p wi).length ≠ 1 ∧ ∃ t ∈ m.tiles, effA p t = .Unknown) := by
  obtain ⟨_, _, hQ⟩ := question_scan_spec wi p (m.clues_for_player p wi).length
    (List.range m.tiles.length) m (fun i hi => List.mem_range.mp hi)
  unfold Map.best_question
  by_cases hL : (m.clues_for_player p wi).length = 1
  · rw [if_pos hL]
    simp [hL]
  · rw [if_neg hL]
    simp only []
    cases hbest : min_set_by_key (fun q => abs_diff q.gain_with_yes q.gain_with_no)
        (question_scan wi p (m.clues_for_player p wi).length m
          (List.range m.tiles.length)).2 with
    | nil =>
      have hqs := (min_set_by_key_eq_nil_iff _ _).mp hbest
      rw [hQ, List.map_eq_nil_iff] at hqs
      have hnone := (no_eligible_iff m p).mp hqs
      simp [hnone]
    | cons q rest' =>
      have hne : min_set_by_key (fun q => abs_diff q.gain_with_yes q.gain_with_no)
          (question_scan wi p (m.clues_for_player p wi).length m
            (List.range m.tiles.length)).2 ≠ [] := by
        rw [hbest]
        simp
      have hqsne := fun hh => hne ((min_set_by_key_eq_nil_iff _ _).mpr hh)
      have hfil : ¬ ((List.range m.tiles.length).filter (fun j => eligible m p j) = []) := by
        intro hh
        apply hqsne
        rw [hQ, hh]
        rfl
      have hext : ∃ t ∈ m.tiles, effA p t = .Unknown := by
        by_contra hc
        exact hfil ((no_eligible_iff m p).mpr hc)
      simp [hL, hext]

theorem length_filter_not_add {α : Type} (p : α → Bool) (l : List α) :
    (l.filter p).length + (l.filter (fun a => !(p a))).length = l.length := by
  induction l with
  | nil => rfl
  | cons x xs ih =>
    cases hp : p x <;> simp [List.filter_cons, hp, ← ih] <;> omega

theorem abs_diff_of_le {a b : Nat} (h : b ≤ a) : abs_diff a b = a - b := by
  unfold abs_diff
  split <;> omega

theorem tie_minmax {L gy gn gy' gn' : Nat} (hs : gy + gn = L) (hs' : gy' + gn' = L)
    (hb : abs_diff gy gn = abs_diff gy' gn') :
    min gn gy = min gn' gy' ∧ max gn gy = max gn' gy' := by
  unfold abs_diff at hb
  split at hb <;> split at hb <;> constructor <;> omega

theorem min_set_by_key_eq_filter {α : Type} {f : α → Nat} {l : List α} {x : α}
    (hx : x ∈ min_set_by_key f l) :
    min_set_by_key f l = l.filter (fun a => f a = f x) := by
  unfold min_set_by_key at hx ⊢
  split at hx
  · cases hx
  · rename_i k hm
    rw [List.mem_filter] at hx
    have hfx : f x = k := by simpa using hx.2
    apply List.filter_congr
    intro a _
    rw [hfx]

theorem gain_sum (m : Map) (p : PlayerID) (wi : Bool) {i : Nat} {t0 : Tile}
    (ht0 : m.tiles[i]? = some t0) (heff : effA p t0 = .Unknown) :
    sim_len m p wi .Yes i + sim_len m p wi .No i =
      (m.clues_for_player p wi).length := by
  unfold sim_len
  rw [clues_setAnswer_eq m p wi .Yes ht0 heff, clues_setAnswer_eq m p wi .No ht0 heff]
  have hfn : ((m.clues_for_player p wi).filter
      (fun c => !(contradicts .No (m.clue_applies c t0.position)))) =
      ((m.clues_for_player p wi).filter
      (fun c => !(!(contradicts .Yes (m.clue_applies c t0.position))))) := by
    apply List.filter_congr
    intro c _
    cases m.clue_applies c t0.position <;> rfl
  rw [hfn]
  exact length_filter_not_add
    (fun c => !(contradicts .Yes (m.clue_applies c t0.position))) (m.clues_for_player p wi)

theorem gain_at_sum (m : Map) (p : PlayerID) (wi : Bool) {i : Nat}
    (hi : i < m.tiles.length) (hel : eligible m p i = true) :
    (question_at m p wi (m.clues_for_player p wi).length i).gain_with_yes +
      (question_at m p wi (m.clues_for_player p wi).length i).gain_with_no =
        (m.clues_for_player p wi).length := by
  obtain ⟨t0, ht0⟩ : ∃ t0, m.tiles[i]? = some t0 :=
    ⟨m.tiles[i], List.getElem?_eq_getElem hi⟩
  have heff : effA p t0 = .Unknown := by
    unfold eligible at hel
    rw [ht0] at hel
    have hel' : (effA p t0 == Answer.Unknown) = true := hel
    simpa using hel'
  show abs_diff (m.clues_for_player p wi).length (sim_len m p wi .Yes i) +
    abs_diff (m.clues_for_player p wi).length (sim_len m p wi .No i) = _
  have hsum := gain_sum m p wi ht0 heff
  have hy : sim_len m p wi .Yes i ≤ (m.clues_for_player p wi).length := by
    unfold sim_len
    rw [clues_setAnswer_eq m p wi .Yes ht0 heff]
    exact List.length_filter_le _ _
  have hn : sim_len m p wi .No i ≤ (m.clues_for_player p wi).length := by
    unfold sim_len
    rw [clues_setAnswer_eq m p wi .No ht0 heff]
    exact List.length_filter_le _ _
  rw [abs_diff_of_le hy, abs_diff_of_le hn]
  omega

/-- C9: when the question computation returns a hint, the returned tiles
are exactly those of the eligible questions attaining the minimum balance
(in scan order), and for every tied question the reported least/most gains
are that question's min/max simulated gains. -/
theorem C9_best_question_report (m : Map) (p : PlayerID) (wi : Bool)
    (tiles : List Hex) (low high : Nat)
    (hsome : (m.best_question p wi).2 = some (tiles, low, high)) :
    ∃ b : Nat,
      (∀ q ∈ ((List.range m.tiles.length).filter (fun j => eligible m p j)).map
          (question_at m p wi (m.clues_for_player p wi).length),
        b ≤ abs_diff q.gain_with_yes q.gain_with_no) ∧
      tiles = ((((List.range m.tiles.length).filter (fun j => eligible m p j)).map
          (question_at m p wi (m.clues_for_player p wi).length)).filter
            (fun q => abs_diff q.gain_with_yes q.gain_with_no = b)).map
          (fun q => q.tile) ∧
      (∀ q ∈ ((List.range m.tiles.length).filter (fun j => eligible m p j)).map
          (question_at m p wi (m.clues_for_player p wi).length),
        abs_diff q.gain_with_yes q.gain_with_no = b →
          (low = min q.gain_with_no q.gain_with_yes ∧
           high = max q.gain_with_no q.gain_with_yes)) := by
  obtain ⟨_, _, hQ⟩ := question_scan_spec wi p (m.clues_for_player p wi).length
    (List.range m.tiles.length) m (fun i hi => List.mem_range.mp hi)
  unfold Map.best_question at hsome
  by_cases hL : (m.clues_for_player p wi).length = 1
  · rw [if_pos hL] at hsome
    cases hsome
  · rw [if_neg hL] at hsome
    simp only [] at hsome
    cases hbest : min_set_by_key (fun q => abs_diff q.gain_with_yes q.gain_with_no)
        (question_scan wi p (m.clues_for_player p wi).length m
          (List.range m.tiles.length)).2 with
    | nil =>
      rw [hbest] at hsome
      cases hsome
    | cons q0 rest' =>
      rw [hbest] at hsome
      have h3 := Option.some.inj hsome
      have htiles : tiles = (q0 :: rest').map (fun q => q.tile) :=
        (congrArg Prod.fst h3).symm
      have hlow : low = min q0.gain_with_no q0.gain_with_yes :=
        (congrArg (fun x => x.2.1) h3).symm
      have hhigh : high = max q0.gain_with_no q0.gain_with_yes :=
        (congrArg (fun x => x.2.2) h3).symm
      have hq0mem : q0 ∈ min_set_by_key (fun q => abs_diff q.gain_with_yes q.gain_with_no)
          (question_scan wi p (m.clues_for_player p wi).length m
            (List.range m.tiles.length)).2 := by
        rw [hbest]
        exact List.mem_cons_self _ _
      obtain ⟨hq0qs, hq0min⟩ := mem_min_set_by_key.mp hq0mem
      rw [hQ] at hq0qs
      refine ⟨abs_diff q0.gain_with_yes q0.gain_with_no, ?_, ?_, ?_⟩
      · intro q hq
        apply hq0min
        rw [hQ]
        exact hq
      · rw [htiles, ← hbest, min_set_by_key_eq_filter hq0mem, hQ]
      · intro q hq hbal
        obtain ⟨i, hi_mem, hqat⟩ := List.mem_map.mp hq
        have hi_fil := List.mem_filter.mp hi_mem
        have hir : i < m.tiles.length := List.mem_range.mp hi_fil.1
        have hel : eligible m p i = true := by simpa using hi_fil.2
        have hsum_q := gain_at_sum m p wi hir hel
        rw [hqat] at hsum_q
        obtain ⟨i0, hi0_mem, hq0eq⟩ := List.mem_map.mp hq0qs
        have hi0_fil := List.mem_filter.mp hi0_mem
        have hir0 : i0 < m.tiles.length := List.mem_range.mp hi0_fil.1
        have hel0 : eligible m p i0 = true := by simpa using hi0_fil.2
        have hsum_q0 := gain_at_sum m p wi hir0 hel0
        rw [hq0eq] at hsum_q0
        obtain ⟨hmin, hmax⟩ := tie_minmax hsum_q hsum_q0 hbal
        rw [hlow, hhigh]
        exact ⟨hmin.symm, hmax.symm⟩

theorem best_question_fst_eq (m : Map) (p : PlayerID) (wi : Bool) :
    (m.best_question p wi).1 =
      (if (m.clues_for_player p wi).length = 1 then m else
        (question_scan wi p (m.clues_for_player p wi).length m
          (List.range m.tiles.length)).1) := by
  unfold Map.best_question
  by_cases hL : (m.clues_for_player p wi).length = 1
  · rw [if_pos hL, if_pos hL]
  · rw [if_neg hL, if_neg hL]
    simp only []
    cases hbest : min_set_by_key (fun q => abs_diff q.gain_with_yes q.gain_with_no)
        (question_scan wi p (m.clues_for_player p wi).length m
          (List.range m.tiles.length)).2 with
    | nil => rfl
    | cons q rest => rfl

theorem best_question_evol (m : Map) (p : PlayerID) (wi : Bool) :
    AnsEvol m (m.best_question p wi).1 := by
  rw [best_question_fst_eq]
  by_cases hL : (m.clues_for_player p wi).length = 1
  · rw [if_pos hL]
    exact AnsEvol_refl m
  · rw [if_neg hL]
    exact (question_scan_spec wi p (m.clues_for_player p wi).length
      (List.range m.tiles.length) m (fun i hi => List.mem_range.mp hi)).1

theorem best_question_presence (m : Map) (p : PlayerID) (wi : Bool)
    (hL : (m.clues_for_player p wi).length ≠ 1) :
    ∀ i, i < m.tiles.length → ∃ t', ((m.best_question p wi).1).tiles[i]? = some t' ∧
      (alookup p t'.answers).isSome = true := by
  intro i hi
  rw [best_question_fst_eq, if_neg hL]
  exact (question_scan_spec wi p (m.clues_for_player p wi).length
    (List.range m.tiles.length) m (fun j hj => List.mem_range.mp hj)).2.1 i
    (List.mem_range.mpr hi)

theorem quietest_tile_fst_eq (m : Map) (p : PlayerID) (wi : Bool) :
    (m.quietest_tile p wi).1 =
      (no_scan wi p (m.clues_for_player p wi).length m (List.range m.tiles.length)).1 := by
  unfold Map.quietest_tile
  simp only []
  cases hbest : min_set_by_key (fun n => n.clue_diff)
      (no_scan wi p (m.clues_for_player p wi).length m (List.range m.tiles.length)).2 with
  | nil => rfl
  | cons n rest => rfl

theorem quietest_tile_evol (m : Map) (p : PlayerID) (wi : Bool) :
    AnsEvol m (m.quietest_tile p wi).1 := by
  rw [quietest_tile_fst_eq]
  exact (no_scan_spec wi p (m.clues_for_player p wi).length
    (List.range m.tiles.length) m (fun i hi => List.mem_range.mp hi)).1

theorem quietest_tile_presence (m : Map) (p : PlayerID) (wi : Bool) :
    ∀ i, i < m.tiles.length → ∃ t', ((m.quietest_tile p wi).1).tiles[i]? = some t' ∧
      (alookup p t'.answers).isSome = true := by
  intro i hi
  rw [quietest_tile_fst_eq]
  exact (no_scan_spec wi p (m.clues_for_player p wi).length
    (List.range m.tiles.length) m (fun j hj => List.mem_range.mp hj)).2.1 i
    (List.mem_range.mpr hi)

theorem hint_step_fst (wi : Bool) (acc : Map × List Hint) (player : Player) :
    (hint_step wi acc player).1 = ((acc.1).best_question player.id wi).1 := by
  unfold hint_step
  rcases hbq : (acc.1).best_question player.id wi with ⟨m', o⟩
  cases o with
  | none => rfl
  | some v =>
    rcases v with ⟨tiles, al, am⟩
    rfl

theorem hints_fold_evol (wi : Bool) (ops : List Player) :
    ∀ (acc : Map × List Hint), AnsEvol acc.1 ((ops.foldl (hint_step wi) acc).1) := by
  induction ops with
  | nil =>
    intro acc
    exact AnsEvol_refl _
  | cons pl ops ih =>
    intro acc
    rw [List.foldl_cons]
    refine AnsEvol_trans ?_ (ih (hint_step wi acc pl))
    rw [hint_step_fst]
    exact best_question_evol acc.1 pl.id wi

theorem hints_fold_presence (wi : Bool) (m0 : Map) (pl : Player)
    (hL : (m0.clues_for_player pl.id wi).length ≠ 1) :
    ∀ (ops : List Player) (acc : Map × List Hint), AnsEvol m0 acc.1 → pl ∈ ops →
      ∀ i, i < m0.tiles.length →
        ∃ t', ((ops.foldl (hint_step wi) acc).1).tiles[i]? = some t' ∧
          (alookup pl.id t'.answers).isSome = true := by
  intro ops
  induction ops with
  | nil =>
    intro acc _ hpl
    cases hpl
  | cons pl' ops ih =>
    intro acc hstart hpl i hi
    rw [List.foldl_cons]
    rcases List.mem_cons.mp hpl with rfl | hmem
    · have hLc : (acc.1.clues_for_player pl.id wi).length ≠ 1 := by
        rw [clues_for_player_congr_ansEvol hstart pl.id wi]
        exact hL
      have hi' : i < acc.1.tiles.length := by
        rw [← hstart.length_eq]
        exact hi
      obtain ⟨t', ht', hsome⟩ := best_question_presence acc.1 pl.id wi hLc i hi'
      have ht'2 : (hint_step wi acc pl).1.tiles[i]? = some t' := by
        rw [hint_step_fst]
        exact ht'
      obtain ⟨t'', ht'', hsome''⟩ :=
        ansEvol_isSome (hints_fold_evol wi ops (hint_step wi acc pl)) ht'2 hsome
      exact ⟨t'', ht'', hsome''⟩
    · refine ih (hint_step wi acc pl') ?_ hmem i hi
      refine AnsEvol_trans hstart ?_
      rw [hint_step_fst]
      exact best_question_evol acc.1 pl'.id wi

theorem calculate_hints_map_eq (s : TryingClues) :
    (s.calculate_hints).map =
      (((s.players.filter (fun p => p.id ≠ s.user)).foldl
        (hint_step s.with_inverted) (s.map, [])).1.quietest_tile s.user
          s.with_inverted).1 := rfl

theorem calculate_hints_evol (s : TryingClues) : AnsEvol s.map (s.calculate_hints).map := by
  rw [calculate_hints_map_eq]
  refine AnsEvol_trans (hints_fold_evol s.with_inverted
    (s.players.filter (fun p => p.id ≠ s.user)) (s.map, [])) ?_
  exact quietest_tile_evol _ s.user s.with_inverted

/-- C7 counterexample: a player with zero candidate clues (fewer than two)
still receives a question hint — the code only skips the player when the
candidate count is exactly one. -/
theorem C7_counterexample :
    (cexMap.clues_for_player 1 false).length < 2 ∧
      ((cexMap.best_question 1 false).2).isSome = true := by
  decide

/-- C9 witness: the report characterization applied to the concrete map
where the question computation returns `some ([(20, 0)], 0, 0)`. -/
theorem C9_best_question_report_witness :
    ∃ b : Nat,
      (∀ q ∈ ((List.range cexMap.tiles.length).filter (fun j => eligible cexMap 1 j)).map
          (question_at cexMap 1 false (cexMap.clues_for_player 1 false).length),
        b ≤ abs_diff q.gain_with_yes q.gain_with_no) ∧
      [(⟨20, 0⟩ : Hex)] =
        ((((List.range cexMap.tiles.length).filter (fun j => eligible cexMap 1 j)).map
            (question_at cexMap 1 false (cexMap.clues_for_player 1 false).length)).filter
              (fun q => abs_diff q.gain_with_yes q.gain_with_no = b)).map
            (fun q => q.tile) ∧
      (∀ q ∈ ((List.range cexMap.tiles.length).filter (fun j => eligible cexMap 1 j)).map
          (question_at cexMap 1 false (cexMap.clues_for_player 1 false).length),
        abs_diff q.gain_with_yes q.gain_with_no = b →
          (0 = min q.gain_with_no q.gain_with_yes ∧
           0 = max q.gain_with_no q.gain_with_yes)) :=
  C9_best_question_report cexMap 1 false [⟨20, 0⟩] 0 0 (by decide)

/-- C8 (amended): the hint computation does not leave every tile's answers
mapping unchanged; each stored answer is either unchanged or a fresh
`Unknown` entry inserted for a previously missing key. -/
theorem C8_answers_evolution (s : TryingClues) :
    List.Forall₂ (fun t t' => ∀ q : PlayerID,
      alookup q t'.answers = alookup q t.answers ∨
        (alookup q t.answers = none ∧ alookup q t'.answers = some Answer.Unknown))
      s.map.tiles (s.calculate_hints).map.tiles :=
  List.Forall₂.imp (fun _ _ h => h.2.2) (calculate_hints_evol s)

/-- C8 counterexample: after the hint computation the answers mapping of
the tile is structurally different — an `Unknown` entry for the user was
inserted by the entry-or-default access. -/
theorem C8_counterexample :
    (c8State.calculate_hints).map.tiles.map (fun t => t.answers) ≠
      c8State.map.tiles.map (fun t => t.answers) := by
  decide

theorem alookup_foldl_prefill (players : List Player) (q : PlayerID)
    (a : List (PlayerID × Answer))
    (h : q ∈ players.map (fun p => p.id) ∨ alookup q a = some Answer.Unknown) :
    alookup q (players.foldl (fun a p => ainsert p.id Answer.Unknown a) a) =
      some Answer.Unknown := by
  induction players generalizing a with
  | nil =>
    rcases h with h | h
    · simp at h
    · exact h
  | cons p ps ih =>
    rw [List.foldl_cons]
    apply ih
    by_cases hq : q = p.id
    · refine Or.inr ?_
      rw [hq]
      exact alookup_ainsert_self p.id .Unknown a
    · rcases h with h | h
      · rw [List.map_cons] at h
        rcases List.mem_cons.mp h with h' | h'
        · exact absurd h' hq
        · exact Or.inl h'
      · rw [← alookup_ainsert_other hq Answer.Unknown a] at h
        exact Or.inr h

/-- C10: the hint computation gives every scanned player an explicit entry
on every tile (first conjunct: the user is always scanned, an opponent
whenever their candidate count is not one); a previously missing entry can
only appear as `Unknown` (second conjunct); and `prefill_answers` fills
every (tile, player) entry with `Unknown`, so the insertions are invisible
after the normal construction path (third conjunct). -/
theorem C10_entry_insertion (s : TryingClues) :
    (∀ pl ∈ s.players,
      (pl.id = s.user ∨ (s.map.clues_for_player pl.id s.with_inverted).length ≠ 1) →
      ∀ i, i < s.map.tiles.length →
        ∃ t', ((s.calculate_hints).map.tiles)[i]? = some t' ∧
          (alookup pl.id t'.answers).isSome = true) ∧
    (∀ (i : Nat) (t t' : Tile) (q : PlayerID),
      s.map.tiles[i]? = some t → ((s.calculate_hints).map.tiles)[i]? = some t' →
      alookup q t.answers = none →
      alookup q t'.answers = none ∨ alookup q t'.answers = some Answer.Unknown) ∧
    (∀ pl ∈ s.players, ∀ t' ∈ (s.prefill_answers).map.tiles,
      alookup pl.id t'.answers = some Answer.Unknown) := by
  refine ⟨?_, ?_, ?_⟩
  · intro pl hmem hcase i hi
    rw [calculate_hints_map_eq]
    have hfev : AnsEvol s.map
        (((s.players.filter (fun p => p.id ≠ s.user)).foldl
          (hint_step s.with_inverted) (s.map, [])).1) :=
      hints_fold_evol s.with_inverted (s.players.filter (fun p => p.id ≠ s.user)) (s.map, [])
    by_cases hu : pl.id = s.user
    · have hi' : i < (((s.players.filter (fun p => p.id ≠ s.user)).foldl
          (hint_step s.with_inverted) (s.map, [])).1).tiles.length := by
        rw [← hfev.length_eq]
        exact hi
      rw [hu]
      exact quietest_tile_presence _ s.user s.with_inverted i hi'
    · have hL : (s.map.clues_for_player pl.id s.with_inverted).length ≠ 1 := by
        rcases hcase with hcase | hcase
        · exact absurd hcase hu
        · exact hcase
      have hmemf : pl ∈ s.players.filter (fun p => p.id ≠ s.user) :=
        List.mem_filter.mpr ⟨hmem, by simpa using hu⟩
      obtain ⟨t', ht', hsome⟩ := hints_fold_presence s.with_inverted s.map pl hL
        (s.players.filter (fun p => p.id ≠ s.user)) (s.map, []) (AnsEvol_refl s.map)
        hmemf i hi
      exact ansEvol_isSome (quietest_tile_evol _ s.user s.with_inverted) ht' hsome
  · intro i t t' q ht ht' hnone
    obtain ⟨t'', ht'', hR⟩ := forall₂_getElem? (calculate_hints_evol s) i ht
    have htt : t'' = t' := Option.some.inj (ht''.symm.trans ht')
    subst htt
    rcases hR.2.2 q with h | ⟨_, h⟩
    · rw [h, hnone]
      exact Or.inl rfl
    · exact Or.inr h
  · intro pl hmem t' ht'
    simp only [TryingClues.prefill_answers] at ht'
    obtain ⟨t, _, rfl⟩ := List.mem_map.mp ht'
    exact alookup_foldl_prefill s.players pl.id t.answers
      (Or.inl (List.mem_map.mpr ⟨pl, hmem, rfl⟩))

/-- C10 witness: on the concrete two-player state the opponent gets an
explicit entry on the tile after the hint computation, and prefilling
gives them an `Unknown` entry on every tile. -/
theorem C10_entry_insertion_witness :
    (∃ t', ((c10State.calculate_hints).map.tiles)[0]? = some t' ∧
      (alookup 1 t'.answers).isSome = true) ∧
    (∀ t' ∈ (c10State.prefill_answers).map.tiles,
      alookup 1 t'.answers = some Answer.Unknown) :=
  ⟨(C10_entry_insertion c10State).1 ⟨1, "B"⟩ (by decide) (by decide) 0 (by decide),
   (C10_entry_insertion c10State).2.2 ⟨1, "B"⟩ (by decide)⟩
